import Mathlib

/-!
Verification of `createPerson` (participantes/RoyMusthang/main.go)

A shallow embedding of the HTTP handler `createPerson` and of the package
level variables it uses, followed by theorems about it.

Modelling conventions.

* A Go `string` that comes out of `encoding/json` is valid UTF-8, so it is a
  Lean `String`.  The Go builtin `len(s)` is the number of BYTES of `s`
  (`String.utf8ByteSize`); `utf8.RuneCountInString(s)`, which the validator
  library uses for `max=` on strings, is the number of characters
  (`String.length`).
* The global `storage` (a `map[string]PersonRequest`) is passed in and out
  explicitly.  For requests handled one after another (`createPerson`, `serve`)
  one call is one state transition; for requests handled concurrently the
  statements of the handler are steps of a goroutine on the shared `storage`
  and `storageMutex` (`Pc.next`, `World.step`).
* `http.ResponseWriter` is modelled by the status code and the body written.
-/

namespace RoyMusthang

/-! ## Data model -/

/-- The struct `PersonRequest`; `Stack` is `*[]string`, a nil pointer is `none`. -/
structure PersonRequest where
  Apelido : String
  Nome : String
  Nascimento : String
  Stack : Option (List String)
deriving DecidableEq, Repr

/-- The part of `*http.Request` the handler reads.  `Body` is the outcome of
`json.NewDecoder(r.Body).Decode(&p)`: `none` when `Decode` returns an error,
`some p` for the decoded struct. -/
structure Request where
  Method : String
  Body : Option PersonRequest
deriving DecidableEq, Repr

/-- What the handler wrote to the `http.ResponseWriter`. -/
structure Response where
  status : Nat
  body : String
deriving DecidableEq, Repr

/-- The global `storage`, a `map[string]PersonRequest`: lookup of a key. -/
abbrev Store := String → Option PersonRequest

/-- The value `make(map[string]PersonRequest)`. -/
def Store.empty : Store := fun _ => none

/-- The map assignment `storage[k] = p`. -/
def Store.set (s : Store) (k : String) (p : PersonRequest) : Store :=
  fun k' => if k' = k then some p else s k'

/-- The comma-ok lookup `_, exists := storage[k]`. -/
def Store.exists (s : Store) (k : String) : Bool := (s k).isSome

/-! ## Constants of `net/http` -/

def MethodPost : String := "POST"
def StatusCreated : Nat := 201
def StatusBadRequest : Nat := 400
def StatusMethodNotAllowed : Nat := 405
def StatusConflict : Nat := 409

/-- The helper `http.Error(w, error, code)`: status `code`, body `error` followed by a newline
(`fmt.Fprintln`). -/
def httpError (error : String) (code : Nat) : Response := ⟨code, error ++ "\n"⟩

/-- The call `w.WriteHeader(code)` with nothing written afterwards. -/
def writeHeader (code : Nat) : Response := ⟨code, ""⟩

/-! ## `validate.Struct` on the struct tags of `PersonRequest` -/

/-- The tag of a string field that fails, for the tag list `required,max=n`:
`required` fails on the zero value `""`, `max=n` fails when the rune count exceeds `n`.
Tags are tried in order and the first failure is reported. -/
def failedTag (value : String) (max : Option Nat) : Option String :=
  if value = "" then some "required"
  else match max with
    | some n => if value.length > n then some "max" else none
    | none => none

/-- The text of one `validator.FieldError`. -/
def fieldErrMsg (field tag : String) : String :=
  "Key: 'PersonRequest." ++ field ++ "' Error:Field validation for '" ++ field ++
    "' failed on the '" ++ tag ++ "' tag"

/-- The field errors of `validate.Struct(p)`, in field order.  `Stack` has no `validate` tag and
is not inspected. -/
def fieldErrors (p : PersonRequest) : List String :=
  ((failedTag p.Apelido (some 32)).map (fieldErrMsg "Apelido")).toList ++
  ((failedTag p.Nome (some 100)).map (fieldErrMsg "Nome")).toList ++
  ((failedTag p.Nascimento none).map (fieldErrMsg "Nascimento")).toList

/-- The call `validate.Struct(p)`: `none` is a nil error, `some msg` carries `err.Error()`, the
field errors joined by newlines. -/
def validateStruct (p : PersonRequest) : Option String :=
  match fieldErrors p with
  | [] => none
  | errs => some ("\n".intercalate errs)

/-! ## `dateRegex` -/

/-- One element of the pattern: `\d` or a literal character. -/
inductive Atom where
  | digit : Atom
  | lit : Char → Atom
deriving DecidableEq, Repr

/-- The class `\d` of Go regexps is the ASCII digits `0`-`9`. -/
def isDigit (c : Char) : Bool := decide ('0'.toNat ≤ c.toNat) && decide (c.toNat ≤ '9'.toNat)

/-- Whether one character matches one pattern element. -/
def Atom.accepts : Atom → Char → Bool
  | Atom.digit, c => isDigit c
  | Atom.lit l, c => decide (c = l)

/-- Matching of `^a₁a₂…aₙ$`: `^` pins the start of the text, `$` (without the `m` flag) its very
end. -/
def matchAnchored : List Atom → List Char → Bool
  | [], [] => true
  | [], _ :: _ => false
  | _ :: _, [] => false
  | a :: as, c :: cs => a.accepts c && matchAnchored as cs

/-- The pattern `^\d{4}-\d{2}-\d{2}$`, with the counted repetitions unfolded. -/
def dateRegex : List Atom :=
  List.replicate 4 Atom.digit ++ [Atom.lit '-'] ++ List.replicate 2 Atom.digit ++
    [Atom.lit '-'] ++ List.replicate 2 Atom.digit

/-- The call `dateRegex.MatchString(s)`. -/
def MatchString (re : List Atom) (s : String) : Bool := matchAnchored re s.data

/-! ## The handler -/

/-- The loop condition on one stack item: `item == "" || len(item) > 32`, where `len` is the
length in bytes. -/
def badStackItem (item : String) : Bool := decide (item = "") || decide (item.utf8ByteSize > 32)

/-- The block `if p.Stack != nil { for _, item := range *p.Stack { … return } }`: whether the loop
reaches its `return`. -/
def stackRejected (stack : Option (List String)) : Bool :=
  match stack with
  | none => false
  | some items => items.any badStackItem

/-- The handler `createPerson`, as a transition of the global `storage` that also yields the
response. -/
def createPerson (storage : Store) (r : Request) : Response × Store :=
  if r.Method ≠ MethodPost then
    (httpError "Método não permitido" StatusMethodNotAllowed, storage)
  else
    match r.Body with
    | none => (httpError "Erro ao decodificar JSON" StatusBadRequest, storage)
    | some p =>
      match validateStruct p with
      | some err => (httpError ("Erro de validação: " ++ err) StatusBadRequest, storage)
      | none =>
        if !MatchString dateRegex p.Nascimento then
          (httpError "Formato de nascimento inválido. Use AAAA-MM-DD" StatusBadRequest, storage)
        else if stackRejected p.Stack then
          (httpError "Cada item da stack deve ser não vazio e ter até 32 caracteres"
            StatusBadRequest, storage)
        else if storage.exists p.Apelido then
          (httpError "Apelido já existente" StatusConflict, storage)
        else
          (writeHeader StatusCreated, storage.set p.Apelido p)

/-- Requests handled one after another, each on the storage the previous one left: the responses
in order and the final storage. -/
def serve (storage : Store) : List Request → List Response × Store
  | [] => ([], storage)
  | r :: rs =>
    let (resp, storage1) := createPerson storage r
    let (resps, storage2) := serve storage1 rs
    (resp :: resps, storage2)

/-! ## Vocabulary of the specification -/

/-- An ASCII digit, one of the ten characters `0` … `9`. -/
def IsAsciiDigit (c : Char) : Prop := c ∈ ['0', '1', '2', '3', '4', '5', '6', '7', '8', '9']

/-- The text shape `YYYY-MM-DD` in the specification's words: exactly ten characters, four ASCII
digits, `-`, two ASCII digits, `-`, two ASCII digits, and nothing else. -/
def IsDateText (s : String) : Prop :=
  ∃ y1 y2 y3 y4 m1 m2 d1 d2 : Char,
    (IsAsciiDigit y1 ∧ IsAsciiDigit y2 ∧ IsAsciiDigit y3 ∧ IsAsciiDigit y4) ∧
    (IsAsciiDigit m1 ∧ IsAsciiDigit m2) ∧ (IsAsciiDigit d1 ∧ IsAsciiDigit d2) ∧
    s = String.mk [y1, y2, y3, y4, '-', m1, m2, '-', d1, d2]

/-- The structural rule of the specification: `apelido` present with at most 32 characters,
`nome` present with at most 100 characters, `nascimento` present. -/
def StructurallyValid (p : PersonRequest) : Prop :=
  (p.Apelido ≠ "" ∧ p.Apelido.length ≤ 32) ∧ (p.Nome ≠ "" ∧ p.Nome.length ≤ 100) ∧
    p.Nascimento ≠ ""

/-- A stack that the handler's stack check lets through: it is null, or each item is non-empty
and at most 32 bytes long. -/
def StackAccepted (stack : Option (List String)) : Prop :=
  ∀ items, stack = some items → ∀ item ∈ items, item ≠ "" ∧ item.utf8ByteSize ≤ 32

/-- A decoded body that passes the structural, date-format and stack checks. -/
def PassesChecks (p : PersonRequest) : Prop :=
  StructurallyValid p ∧ IsDateText p.Nascimento ∧ StackAccepted p.Stack

/-- The request of the specification's first scenario. -/
def roy : PersonRequest := ⟨"roy", "Roy M", "1990-01-01", some ["go", "python"]⟩

/-- The error taxonomy of the specification, listed in the order of the validation sequence. -/
inductive ErrorKind where
  | MethodNotSupported
  | MalformedInput
  | ValidationError
  | InvalidDateFormat
  | InvalidStackItem
  | DuplicateNickname
deriving DecidableEq, Repr

/-- Position of a check in the validation sequence: method, body decode, structural validation,
date format, stack items, duplicate nickname. -/
def ErrorKind.rank : ErrorKind → Nat
  | ErrorKind.MethodNotSupported => 0
  | ErrorKind.MalformedInput => 1
  | ErrorKind.ValidationError => 2
  | ErrorKind.InvalidDateFormat => 3
  | ErrorKind.InvalidStackItem => 4
  | ErrorKind.DuplicateNickname => 5

/-- Whether a request fails the check of one kind, each check taken on its own, whatever the
other checks say.  The checks on the decoded record are not failed by a body that does not
decode. -/
def failsCheck (storage : Store) (r : Request) : ErrorKind → Bool
  | ErrorKind.MethodNotSupported => decide (r.Method ≠ MethodPost)
  | ErrorKind.MalformedInput => r.Body.isNone
  | ErrorKind.ValidationError =>
    match r.Body with
    | some p => (validateStruct p).isSome
    | none => false
  | ErrorKind.InvalidDateFormat =>
    match r.Body with
    | some p => !MatchString dateRegex p.Nascimento
    | none => false
  | ErrorKind.InvalidStackItem =>
    match r.Body with
    | some p => stackRejected p.Stack
    | none => false
  | ErrorKind.DuplicateNickname =>
    match r.Body with
    | some p => storage.exists p.Apelido
    | none => false

/-- The client-visible answer of each error kind: status code and body text. -/
def Reports (resp : Response) : ErrorKind → Prop
  | ErrorKind.MethodNotSupported => resp = ⟨405, "Método não permitido\n"⟩
  | ErrorKind.MalformedInput => resp = ⟨400, "Erro ao decodificar JSON\n"⟩
  | ErrorKind.ValidationError => ∃ err, resp = ⟨400, "Erro de validação: " ++ err ++ "\n"⟩
  | ErrorKind.InvalidDateFormat =>
    resp = ⟨400, "Formato de nascimento inválido. Use AAAA-MM-DD\n"⟩
  | ErrorKind.InvalidStackItem =>
    resp = ⟨400, "Cada item da stack deve ser não vazio e ter até 32 caracteres\n"⟩
  | ErrorKind.DuplicateNickname => resp = ⟨409, "Apelido já existente\n"⟩

/-- A string of 32 characters that takes 64 bytes in UTF-8. -/
def thirtyTwoAccented : String := String.mk (List.replicate 32 'é')

/-- A valid POST carrying the nickname `k`: the method is POST and the body decodes to a record
with apelido `k` that passes the structural, date-format and stack checks. -/
def ValidPostFor (k : String) (r : Request) : Prop :=
  r.Method = MethodPost ∧ ∃ p, r.Body = some p ∧ p.Apelido = k ∧ PassesChecks p

/-- The status code passed to `http.Error` at the `return` of each error kind. -/
def ErrorKind.status : ErrorKind → Nat
  | ErrorKind.MethodNotSupported => StatusMethodNotAllowed
  | ErrorKind.MalformedInput => StatusBadRequest
  | ErrorKind.ValidationError => StatusBadRequest
  | ErrorKind.InvalidDateFormat => StatusBadRequest
  | ErrorKind.InvalidStackItem => StatusBadRequest
  | ErrorKind.DuplicateNickname => StatusConflict

/-! ## The handler under concurrent requests

`net/http` runs the handler of each request in its own goroutine.  Lines 29-60 of `createPerson`
touch only the request and the response writer of that goroutine; lines 63-75 run between
`storageMutex.Lock()` and the deferred `storageMutex.Unlock()`.  The global state is the
`storage` map, the mutex and one program counter per goroutine; one step is one goroutine
executing its next statement, and an interleaving is the sequence of goroutines that take the
steps.  A write to the goroutine's own response writer is folded into the step before it.
`storage` is read and written only while the mutex is held, so the accesses are ordered by the
lock and every execution is such an interleaving. -/

/-- Lines 29-60 of the handler, which read the request only: the error response of the first
failing check, or the decoded record when every check passes. -/
def validateRequest (r : Request) : Except Response PersonRequest :=
  if r.Method ≠ MethodPost then
    Except.error (httpError "Método não permitido" StatusMethodNotAllowed)
  else
    match r.Body with
    | none => Except.error (httpError "Erro ao decodificar JSON" StatusBadRequest)
    | some p =>
      match validateStruct p with
      | some err => Except.error (httpError ("Erro de validação: " ++ err) StatusBadRequest)
      | none =>
        if !MatchString dateRegex p.Nascimento then
          Except.error
            (httpError "Formato de nascimento inválido. Use AAAA-MM-DD" StatusBadRequest)
        else if stackRejected p.Stack then
          Except.error
            (httpError "Cada item da stack deve ser não vazio e ter até 32 caracteres"
              StatusBadRequest)
        else
          Except.ok p

/-- Where a goroutine running `createPerson` stands. -/
inductive Pc where
  /-- At line 29 with request `r`, nothing executed yet. -/
  | validating (r : Request)
  /-- The checks passed; about to call `storageMutex.Lock()` (line 63). -/
  | atLock (p : PersonRequest)
  /-- Holding the mutex, about to look up `storage[p.Apelido]` (line 65). -/
  | atLookup (p : PersonRequest)
  /-- Holding the mutex, the lookup found nothing; about to assign `storage[p.Apelido] = p`
  (line 71). -/
  | atStore (p : PersonRequest)
  /-- Holding the mutex, the response is written; the deferred `storageMutex.Unlock()` is
  pending. -/
  | atUnlock (resp : Response)
  /-- The handler has returned with this response. -/
  | finished (resp : Response)
deriving DecidableEq, Repr

/-- The next statement of one goroutine on the shared `storage` and mutex: the new program
counter, storage and mutex state, or `none` when the goroutine cannot move (it has returned, or
`Lock()` blocks because the mutex is held). -/
def Pc.next (storage : Store) (locked : Bool) : Pc → Option (Pc × Store × Bool)
  | Pc.validating r =>
    match validateRequest r with
    | Except.error resp => some (Pc.finished resp, storage, locked)
    | Except.ok p => some (Pc.atLock p, storage, locked)
  | Pc.atLock p => if locked then none else some (Pc.atLookup p, storage, true)
  | Pc.atLookup p =>
    if storage.exists p.Apelido then
      some (Pc.atUnlock (httpError "Apelido já existente" StatusConflict), storage, locked)
    else
      some (Pc.atStore p, storage, locked)
  | Pc.atStore p =>
    some (Pc.atUnlock (writeHeader StatusCreated), storage.set p.Apelido p, locked)
  | Pc.atUnlock resp => some (Pc.finished resp, storage, false)
  | Pc.finished _ => none

/-- The global state: the map `storage`, whether `storageMutex` is held, and the program counter
of each goroutine. -/
structure World where
  storage : Store
  locked : Bool
  pcs : List Pc

/-- The state when the requests `rs` have just arrived: the mutex is free and no handler has
executed anything. -/
def World.init (storage : Store) (rs : List Request) : World :=
  ⟨storage, false, rs.map Pc.validating⟩

/-- Goroutine `i` is scheduled: it executes its next statement if it can move, otherwise nothing
changes. -/
def World.step (w : World) (i : Nat) : World :=
  match w.pcs[i]? with
  | none => w
  | some pc =>
    match pc.next w.storage w.locked with
    | none => w
    | some (pc', storage', locked') => ⟨storage', locked', w.pcs.set i pc'⟩

/-- An interleaving: the goroutines take steps in the order of the schedule. -/
def World.run (w : World) : List Nat → World
  | [] => w
  | i :: schedule => (w.step i).run schedule

/-- Whether goroutine `i` can move. -/
def World.enabled (w : World) (i : Nat) : Bool :=
  match w.pcs[i]? with
  | none => false
  | some pc => (pc.next w.storage w.locked).isSome

/-- No goroutine can move any more: the execution is complete. -/
def World.quiescent (w : World) : Bool :=
  (List.range w.pcs.length).all fun i => !w.enabled i

/-- The response of the successful path, `w.WriteHeader(http.StatusCreated)`. -/
def createdResponse : Response := writeHeader StatusCreated

/-- The response of the duplicate path, `http.Error(w, "Apelido já existente", …)`. -/
def conflictResponse : Response := httpError "Apelido já existente" StatusConflict

/-- Whether a goroutine at this point holds `storageMutex` (between `Lock()` and the deferred
`Unlock()`). -/
def Pc.holds : Pc → Bool
  | Pc.atLookup _ => true
  | Pc.atStore _ => true
  | Pc.atUnlock _ => true
  | _ => false

/-- Whether the goroutine has written its response. -/
def Pc.responded : Pc → Bool
  | Pc.atUnlock _ => true
  | Pc.finished _ => true
  | _ => false

/-- Whether the goroutine has written the 201 response. -/
def Pc.created : Pc → Bool
  | Pc.atUnlock resp => decide (resp = createdResponse)
  | Pc.finished resp => decide (resp = createdResponse)
  | _ => false

/-- Whether the goroutine has found the nickname free: it is about to store, or has stored and
written 201. -/
def Pc.winner : Pc → Bool
  | Pc.atStore _ => true
  | pc => pc.created

/-- Whether the goroutine is about to assign `storage[p.Apelido] = p`. -/
def Pc.isAtStore : Pc → Bool
  | Pc.atStore _ => true
  | _ => false

/-- The number of statements a goroutine can still execute, at most. -/
def Pc.remaining : Pc → Nat
  | Pc.validating _ => 5
  | Pc.atLock _ => 4
  | Pc.atLookup _ => 3
  | Pc.atStore _ => 2
  | Pc.atUnlock _ => 1
  | Pc.finished _ => 0

/-- The number of statements all goroutines together can still execute, at most. -/
def World.remaining (w : World) : Nat := (w.pcs.map Pc.remaining).sum

/-- What a program counter can be when every request is a valid POST carrying nickname `k`. -/
def GoodPc (k : String) : Pc → Prop
  | Pc.validating r => ValidPostFor k r
  | Pc.atLock p => p.Apelido = k
  | Pc.atLookup p => p.Apelido = k
  | Pc.atStore p => p.Apelido = k
  | Pc.atUnlock resp => resp = createdResponse ∨ resp = conflictResponse
  | Pc.finished resp => resp = createdResponse ∨ resp = conflictResponse

/-- At most one goroutine satisfies `P`. -/
def AtMostOne (P : Pc → Bool) (pcs : List Pc) : Prop :=
  ∀ (i j : Nat) (pc pc' : Pc),
    pcs[i]? = some pc → pcs[j]? = some pc' → P pc = true → P pc' = true → i = j

/-- The invariant of every interleaving of valid POSTs that all carry nickname `k`. -/
structure Inv (k : String) (w : World) : Prop where
  good : ∀ pc ∈ w.pcs, GoodPc k pc
  exclusive : AtMostOne Pc.holds w.pcs
  locked_iff : w.locked = true ↔ ∃ pc ∈ w.pcs, pc.holds = true
  responded_stored : ∀ pc ∈ w.pcs, pc.responded = true → w.storage k ≠ none
  stored_created : w.storage k ≠ none → ∃ pc ∈ w.pcs, pc.created = true
  one_winner : AtMostOne Pc.winner w.pcs
  store_fresh : ∀ pc ∈ w.pcs, pc.isAtStore = true → w.storage k = none

/-! ## Lemmas on the checks -/

theorem isDigit_iff (c : Char) : isDigit c = true ↔ IsAsciiDigit c := by
  unfold isDigit IsAsciiDigit
  constructor
  · intro h
    simp only [Bool.and_eq_true, decide_eq_true_eq] at h
    have h0 : ('0' : Char).toNat = 48 := rfl
    have h9 : ('9' : Char).toNat = 57 := rfl
    rw [h0, h9] at h
    obtain ⟨h1, h2⟩ := h
    have hc : c = Char.ofNat c.toNat := (Char.ofNat_toNat c).symm
    rw [hc]
    generalize c.toNat = n at h1 h2
    interval_cases n <;> decide
  · intro h
    simp only [List.mem_cons, List.mem_singleton, List.mem_nil_iff, or_false] at h
    rcases h with h | h | h | h | h | h | h | h | h | h <;> subst h <;> decide

theorem failedTag_eq_none_iff (value : String) (max : Option Nat) :
    failedTag value max = none ↔ value ≠ "" ∧ ∀ n, max = some n → value.length ≤ n := by
  unfold failedTag
  by_cases hv : value = ""
  · simp [hv]
  · cases max with
    | none => simp [hv]
    | some n =>
      by_cases hn : value.length > n
      · simp [hv, hn]
      · simp [hv, hn]; omega

theorem fieldErrors_eq_nil_iff (p : PersonRequest) :
    fieldErrors p = [] ↔ StructurallyValid p := by
  have toList_nil : ∀ o : Option String, o.toList = [] ↔ o = none := by
    intro o; cases o <;> simp [Option.toList]
  unfold fieldErrors StructurallyValid
  simp only [List.append_eq_nil, toList_nil, Option.map_eq_none',
    failedTag_eq_none_iff]
  simp [and_assoc]

theorem validateStruct_eq_none_iff (p : PersonRequest) :
    validateStruct p = none ↔ StructurallyValid p := by
  rw [← fieldErrors_eq_nil_iff]
  unfold validateStruct
  cases h : fieldErrors p <;> simp

theorem matchAnchored_nil (l : List Char) : matchAnchored [] l = true ↔ l = [] := by
  cases l <;> simp [matchAnchored]

theorem matchAnchored_cons (a : Atom) (as : List Atom) (l : List Char) :
    matchAnchored (a :: as) l = true ↔
      ∃ c cs, l = c :: cs ∧ a.accepts c = true ∧ matchAnchored as cs = true := by
  cases l with
  | nil => simp [matchAnchored]
  | cons c cs =>
    simp only [matchAnchored, Bool.and_eq_true, List.cons.injEq]
    constructor
    · intro h
      exact ⟨c, cs, ⟨rfl, rfl⟩, h⟩
    · rintro ⟨_, _, ⟨rfl, rfl⟩, h⟩
      exact h

theorem dateRegex_eq : dateRegex =
    [Atom.digit, Atom.digit, Atom.digit, Atom.digit, Atom.lit '-', Atom.digit, Atom.digit,
      Atom.lit '-', Atom.digit, Atom.digit] := rfl

theorem matchString_dateRegex_iff (s : String) :
    MatchString dateRegex s = true ↔ IsDateText s := by
  obtain ⟨l⟩ := s
  unfold MatchString IsDateText
  simp only [dateRegex_eq, matchAnchored_cons, matchAnchored_nil, Atom.accepts, isDigit_iff,
    decide_eq_true_eq]
  constructor
  · rintro ⟨y1, _, rfl, h1, y2, _, rfl, h2, y3, _, rfl, h3, y4, _, rfl, h4, _, _, rfl, rfl,
      m1, _, rfl, h5, m2, _, rfl, h6, _, _, rfl, rfl, d1, _, rfl, h7, d2, _, rfl, h8, rfl⟩
    exact ⟨y1, y2, y3, y4, m1, m2, d1, d2, ⟨h1, h2, h3, h4⟩, ⟨h5, h6⟩, ⟨h7, h8⟩, rfl⟩
  · rintro ⟨y1, y2, y3, y4, m1, m2, d1, d2, ⟨h1, h2, h3, h4⟩, ⟨h5, h6⟩, ⟨h7, h8⟩, h⟩
    cases h
    exact ⟨y1, _, rfl, h1, y2, _, rfl, h2, y3, _, rfl, h3, y4, _, rfl, h4, _, _, rfl, rfl,
      m1, _, rfl, h5, m2, _, rfl, h6, _, _, rfl, rfl, d1, _, rfl, h7, d2, _, rfl, h8, rfl⟩

theorem stackRejected_eq_false_iff (stack : Option (List String)) :
    stackRejected stack = false ↔ StackAccepted stack := by
  unfold stackRejected StackAccepted
  cases stack with
  | none => simp
  | some items =>
    simp only [Option.some.injEq, forall_eq', List.any_eq_false, badStackItem]
    constructor
    · intro h item hi
      have := h item hi
      simp at this
      exact this
    · intro h item hi
      have := h item hi
      simp
      exact this

/-! ## The handler, case by case -/

theorem createPerson_of_method_ne (storage : Store) (r : Request) (h : r.Method ≠ MethodPost) :
    createPerson storage r =
      (httpError "Método não permitido" StatusMethodNotAllowed, storage) := by
  unfold createPerson
  rw [if_pos h]

theorem createPerson_of_decode_error (storage : Store) (r : Request) (hm : r.Method = MethodPost)
    (hb : r.Body = none) :
    createPerson storage r = (httpError "Erro ao decodificar JSON" StatusBadRequest, storage) := by
  unfold createPerson
  rw [if_neg (not_not.mpr hm), hb]

theorem createPerson_of_validation_error (storage : Store) (r : Request) (p : PersonRequest)
    (err : String) (hm : r.Method = MethodPost) (hb : r.Body = some p)
    (hv : validateStruct p = some err) :
    createPerson storage r =
      (httpError ("Erro de validação: " ++ err) StatusBadRequest, storage) := by
  unfold createPerson
  rw [if_neg (not_not.mpr hm), hb]
  simp only [hv]

theorem createPerson_of_bad_date (storage : Store) (r : Request) (p : PersonRequest)
    (hm : r.Method = MethodPost) (hb : r.Body = some p) (hv : validateStruct p = none)
    (hd : MatchString dateRegex p.Nascimento = false) :
    createPerson storage r =
      (httpError "Formato de nascimento inválido. Use AAAA-MM-DD" StatusBadRequest, storage) := by
  unfold createPerson
  rw [if_neg (not_not.mpr hm), hb]
  simp only [hv, hd, Bool.not_false, if_true]

theorem createPerson_of_bad_stack (storage : Store) (r : Request) (p : PersonRequest)
    (hm : r.Method = MethodPost) (hb : r.Body = some p) (hv : validateStruct p = none)
    (hd : MatchString dateRegex p.Nascimento = true) (hs : stackRejected p.Stack = true) :
    createPerson storage r =
      (httpError "Cada item da stack deve ser não vazio e ter até 32 caracteres"
        StatusBadRequest, storage) := by
  unfold createPerson
  rw [if_neg (not_not.mpr hm), hb]
  simp [hv, hd, hs]

theorem createPerson_of_duplicate (storage : Store) (r : Request) (p : PersonRequest)
    (hm : r.Method = MethodPost) (hb : r.Body = some p) (hv : validateStruct p = none)
    (hd : MatchString dateRegex p.Nascimento = true) (hs : stackRejected p.Stack = false)
    (he : storage.exists p.Apelido = true) :
    createPerson storage r = (httpError "Apelido já existente" StatusConflict, storage) := by
  unfold createPerson
  rw [if_neg (not_not.mpr hm), hb]
  simp [hv, hd, hs, he]

theorem createPerson_of_fresh (storage : Store) (r : Request) (p : PersonRequest)
    (hm : r.Method = MethodPost) (hb : r.Body = some p) (hv : validateStruct p = none)
    (hd : MatchString dateRegex p.Nascimento = true) (hs : stackRejected p.Stack = false)
    (he : storage.exists p.Apelido = false) :
    createPerson storage r = (writeHeader StatusCreated, storage.set p.Apelido p) := by
  unfold createPerson
  rw [if_neg (not_not.mpr hm), hb]
  simp [hv, hd, hs, he]

theorem passesChecks_iff (p : PersonRequest) :
    PassesChecks p ↔ validateStruct p = none ∧ MatchString dateRegex p.Nascimento = true ∧
      stackRejected p.Stack = false := by
  unfold PassesChecks
  rw [validateStruct_eq_none_iff, matchString_dateRegex_iff, stackRejected_eq_false_iff]

theorem exists_eq_false_iff (storage : Store) (k : String) :
    storage.exists k = false ↔ storage k = none := by
  unfold Store.exists
  cases storage k <;> simp

theorem exists_eq_true_iff (storage : Store) (k : String) :
    storage.exists k = true ↔ ∃ q, storage k = some q := by
  unfold Store.exists
  cases storage k <;> simp

/-- The store is never touched by a call that does not answer 201. -/
theorem createPerson_store_cases (storage : Store) (r : Request) :
    createPerson storage r = ((createPerson storage r).1, storage) ∨
      ∃ p, r.Method = MethodPost ∧ r.Body = some p ∧ PassesChecks p ∧ storage p.Apelido = none ∧
        createPerson storage r = (writeHeader StatusCreated, storage.set p.Apelido p) := by
  by_cases hm : r.Method = MethodPost
  · cases hb : r.Body with
    | none => left; rw [createPerson_of_decode_error storage r hm hb]
    | some p =>
      cases hv : validateStruct p with
      | some err => left; rw [createPerson_of_validation_error storage r p err hm hb hv]
      | none =>
        cases hd : MatchString dateRegex p.Nascimento with
        | false => left; rw [createPerson_of_bad_date storage r p hm hb hv hd]
        | true =>
          cases hs : stackRejected p.Stack with
          | true => left; rw [createPerson_of_bad_stack storage r p hm hb hv hd hs]
          | false =>
            cases he : storage.exists p.Apelido with
            | true => left; rw [createPerson_of_duplicate storage r p hm hb hv hd hs he]
            | false =>
              right
              exact ⟨p, hm, rfl, (passesChecks_iff p).mpr ⟨hv, hd, hs⟩,
                (exists_eq_false_iff storage _).mp he,
                createPerson_of_fresh storage r p hm hb hv hd hs he⟩
  · left; rw [createPerson_of_method_ne storage r hm]

/-- The status codes the handler can answer with. -/
theorem createPerson_status_mem (storage : Store) (r : Request) :
    (createPerson storage r).1.status ∈ [201, 405, 400, 409] := by
  by_cases hm : r.Method = MethodPost
  · cases hb : r.Body with
    | none =>
      rw [createPerson_of_decode_error storage r hm hb]
      simp [httpError, StatusBadRequest, StatusConflict, StatusMethodNotAllowed]
    | some p =>
      cases hv : validateStruct p with
      | some err =>
        rw [createPerson_of_validation_error storage r p err hm hb hv]
        simp [httpError, StatusBadRequest]
      | none =>
        cases hd : MatchString dateRegex p.Nascimento with
        | false =>
          rw [createPerson_of_bad_date storage r p hm hb hv hd]
          simp [httpError, StatusBadRequest, StatusConflict, StatusMethodNotAllowed]
        | true =>
          cases hs : stackRejected p.Stack with
          | true =>
            rw [createPerson_of_bad_stack storage r p hm hb hv hd hs]
            simp [httpError, StatusBadRequest, StatusConflict, StatusMethodNotAllowed]
          | false =>
            cases he : storage.exists p.Apelido with
            | true =>
              rw [createPerson_of_duplicate storage r p hm hb hv hd hs he]
              simp [httpError, StatusBadRequest, StatusConflict, StatusMethodNotAllowed]
            | false =>
              rw [createPerson_of_fresh storage r p hm hb hv hd hs he]
              simp [writeHeader, StatusCreated]
  · rw [createPerson_of_method_ne storage r hm]
    simp [httpError, StatusBadRequest, StatusConflict, StatusMethodNotAllowed]

/-! ## Creation, duplicates and failure -/

/-- C1: a POST request whose body decodes to a record passing the structural, date-format and
stack checks, and whose apelido is not a key of the store, is answered 201 Created with an empty
body, and the resulting store is the old store with the apelido mapped to the submitted record:
the apelido looks up the record and every other key looks up what it did before. -/
theorem createPerson_created (storage : Store) (r : Request) (p : PersonRequest)
    (hm : r.Method = MethodPost) (hb : r.Body = some p) (hp : PassesChecks p)
    (hf : storage p.Apelido = none) :
    (createPerson storage r).1 = ⟨201, ""⟩ ∧
      (createPerson storage r).2 p.Apelido = some p ∧
      ∀ k, k ≠ p.Apelido → (createPerson storage r).2 k = storage k := by
  obtain ⟨hv, hd, hs⟩ := (passesChecks_iff p).mp hp
  rw [createPerson_of_fresh storage r p hm hb hv hd hs ((exists_eq_false_iff storage _).mpr hf)]
  refine ⟨rfl, ?_, ?_⟩
  · simp [Store.set]
  · intro k hk
    simp [Store.set, hk]

theorem createPerson_created_witness :
    PassesChecks roy ∧ Store.empty roy.Apelido = none ∧
      ((createPerson Store.empty ⟨"POST", some roy⟩).1 = ⟨201, ""⟩ ∧
        (createPerson Store.empty ⟨"POST", some roy⟩).2 roy.Apelido = some roy ∧
        ∀ k, k ≠ roy.Apelido → (createPerson Store.empty ⟨"POST", some roy⟩).2 k =
          Store.empty k) :=
  ⟨(passesChecks_iff roy).mpr (by decide), rfl,
    createPerson_created Store.empty ⟨"POST", some roy⟩ roy rfl rfl
      ((passesChecks_iff roy).mpr (by decide)) rfl⟩

/-- C3: the handler answers 201, 405, 400 or 409, and whenever the answer is not 201 the store
after the call equals the store before the call. -/
theorem createPerson_failure_keeps_store (storage : Store) (r : Request) :
    (createPerson storage r).1.status ∈ [201, 405, 400, 409] ∧
      ((createPerson storage r).1.status ≠ 201 → (createPerson storage r).2 = storage) := by
  refine ⟨createPerson_status_mem storage r, ?_⟩
  intro hne
  rcases createPerson_store_cases storage r with h | ⟨p, _, _, _, _, h⟩
  · rw [h]
  · rw [h] at hne
    exact absurd rfl hne

theorem createPerson_failure_keeps_store_witness :
    (createPerson (Store.empty.set "roy" roy) ⟨"POST", some roy⟩).1.status ≠ 201 ∧
      (createPerson (Store.empty.set "roy" roy) ⟨"POST", some roy⟩).2 =
        Store.empty.set "roy" roy :=
  ⟨by decide,
    (createPerson_failure_keeps_store (Store.empty.set "roy" roy) ⟨"POST", some roy⟩).2
      (by decide)⟩

/-! ## Order of the checks -/

theorem validation_body_take (err : String) :
    ("Erro de validação: " ++ err ++ "\n").data.take 6 = ['E', 'r', 'r', 'o', ' ', 'd'] := by
  simp [String.data_append]

/-- No response is the answer of two different error kinds. -/
theorem reports_unique (resp : Response) (k k' : ErrorKind) (h : Reports resp k)
    (h' : Reports resp k') : k = k' := by
  cases k <;> cases k' <;> first
    | rfl
    | (exfalso
       simp only [Reports] at h h'
       first
         | (rw [h] at h'; revert h'; decide)
         | (obtain ⟨err, h⟩ := h
            rw [h] at h'
            have hb := congrArg (fun x => x.body.data.take 6) h'
            simp only [validation_body_take] at hb
            revert hb; decide)
         | (obtain ⟨err, h'⟩ := h'
            rw [h'] at h
            have hb := congrArg (fun x => x.body.data.take 6) h
            simp only [validation_body_take] at hb
            revert hb; decide))

/-- The answer to a request that fails the check of some kind and none of the checks before
it is the answer of that kind. -/
theorem reports_of_first_failure (storage : Store) (r : Request) (kind : ErrorKind)
    (hfail : failsCheck storage r kind = true)
    (hfirst : ∀ kind', kind'.rank < kind.rank → failsCheck storage r kind' = false) :
    Reports (createPerson storage r).1 kind := by
  cases kind with
  | MethodNotSupported =>
    have hm : r.Method ≠ MethodPost := by simpa [failsCheck] using hfail
    rw [createPerson_of_method_ne storage r hm]
    rfl
  | MalformedInput =>
    have hm : r.Method = MethodPost := by
      simpa [failsCheck] using hfirst ErrorKind.MethodNotSupported (by decide)
    have hb : r.Body = none := by simpa [failsCheck] using hfail
    rw [createPerson_of_decode_error storage r hm hb]
    rfl
  | ValidationError =>
    have hm : r.Method = MethodPost := by
      simpa [failsCheck] using hfirst ErrorKind.MethodNotSupported (by decide)
    cases hb : r.Body with
    | none => simp [failsCheck, hb] at hfail
    | some p =>
      cases hv : validateStruct p with
      | none => simp [failsCheck, hb, hv] at hfail
      | some err =>
        rw [createPerson_of_validation_error storage r p err hm hb hv]
        exact ⟨err, rfl⟩
  | InvalidDateFormat =>
    have hm : r.Method = MethodPost := by
      simpa [failsCheck] using hfirst ErrorKind.MethodNotSupported (by decide)
    cases hb : r.Body with
    | none => simp [failsCheck, hb] at hfail
    | some p =>
      have hv : validateStruct p = none := by
        simpa [failsCheck, hb] using hfirst ErrorKind.ValidationError (by decide)
      have hd : MatchString dateRegex p.Nascimento = false := by
        simpa [failsCheck, hb] using hfail
      rw [createPerson_of_bad_date storage r p hm hb hv hd]
      rfl
  | InvalidStackItem =>
    have hm : r.Method = MethodPost := by
      simpa [failsCheck] using hfirst ErrorKind.MethodNotSupported (by decide)
    cases hb : r.Body with
    | none => simp [failsCheck, hb] at hfail
    | some p =>
      have hv : validateStruct p = none := by
        simpa [failsCheck, hb] using hfirst ErrorKind.ValidationError (by decide)
      have hd : MatchString dateRegex p.Nascimento = true := by
        simpa [failsCheck, hb] using hfirst ErrorKind.InvalidDateFormat (by decide)
      have hs : stackRejected p.Stack = true := by simpa [failsCheck, hb] using hfail
      rw [createPerson_of_bad_stack storage r p hm hb hv hd hs]
      rfl
  | DuplicateNickname =>
    have hm : r.Method = MethodPost := by
      simpa [failsCheck] using hfirst ErrorKind.MethodNotSupported (by decide)
    cases hb : r.Body with
    | none => simp [failsCheck, hb] at hfail
    | some p =>
      have hv : validateStruct p = none := by
        simpa [failsCheck, hb] using hfirst ErrorKind.ValidationError (by decide)
      have hd : MatchString dateRegex p.Nascimento = true := by
        simpa [failsCheck, hb] using hfirst ErrorKind.InvalidDateFormat (by decide)
      have hs : stackRejected p.Stack = false := by
        simpa [failsCheck, hb] using hfirst ErrorKind.InvalidStackItem (by decide)
      have he : storage.exists p.Apelido = true := by simpa [failsCheck, hb] using hfail
      rw [createPerson_of_duplicate storage r p hm hb hv hd hs he]
      rfl

/-- C4: the handler reports the first failing check in the order method, body decode,
structural validation, date format, stack items, duplicate nickname: when a request fails the
check of some kind and none of the checks before it, the answer is that kind's answer and no
other kind's.  In particular a POST with a bad date or a bad stack item is answered 400, never
409, also when its apelido is stored; and a POST that passes structural validation with both a
bad date and a bad stack item gets the date-format message. -/
theorem createPerson_fail_fast (storage : Store) (r : Request) :
    (∀ kind, failsCheck storage r kind = true →
      (∀ kind', kind'.rank < kind.rank → failsCheck storage r kind' = false) →
      Reports (createPerson storage r).1 kind ∧
        ∀ kind', Reports (createPerson storage r).1 kind' → kind' = kind) ∧
    (∀ p, r.Method = MethodPost → r.Body = some p →
      MatchString dateRegex p.Nascimento = false ∨ stackRejected p.Stack = true →
      (createPerson storage r).1.status = 400 ∧ (createPerson storage r).1.status ≠ 409) ∧
    (∀ p, r.Method = MethodPost → r.Body = some p → validateStruct p = none →
      MatchString dateRegex p.Nascimento = false → stackRejected p.Stack = true →
      (createPerson storage r).1 =
        ⟨400, "Formato de nascimento inválido. Use AAAA-MM-DD\n"⟩) := by
  refine ⟨?_, ?_, ?_⟩
  · intro kind hfail hfirst
    have hrep := reports_of_first_failure storage r kind hfail hfirst
    exact ⟨hrep, fun kind' h' => reports_unique _ kind' kind h' hrep⟩
  · intro p hm hb hbad
    cases hv : validateStruct p with
    | some err =>
      rw [createPerson_of_validation_error storage r p err hm hb hv]
      simp [httpError, StatusBadRequest]
    | none =>
      cases hd : MatchString dateRegex p.Nascimento with
      | false =>
        rw [createPerson_of_bad_date storage r p hm hb hv hd]
        simp [httpError, StatusBadRequest]
      | true =>
        have hs : stackRejected p.Stack = true := by
          rcases hbad with h | h
          · rw [hd] at h; cases h
          · exact h
        rw [createPerson_of_bad_stack storage r p hm hb hv hd hs]
        simp [httpError, StatusBadRequest]
  · intro p hm hb hv hd _
    rw [createPerson_of_bad_date storage r p hm hb hv hd]
    rfl

theorem createPerson_fail_fast_witness :
    failsCheck (Store.empty.set "roy" roy) ⟨"POST", some ⟨"roy", "Roy M", "01-01-1990", some [""]⟩⟩
        ErrorKind.InvalidDateFormat = true ∧
      failsCheck (Store.empty.set "roy" roy)
        ⟨"POST", some ⟨"roy", "Roy M", "01-01-1990", some [""]⟩⟩
        ErrorKind.InvalidStackItem = true ∧
      failsCheck (Store.empty.set "roy" roy)
        ⟨"POST", some ⟨"roy", "Roy M", "01-01-1990", some [""]⟩⟩
        ErrorKind.DuplicateNickname = true ∧
      Reports (createPerson (Store.empty.set "roy" roy)
        ⟨"POST", some ⟨"roy", "Roy M", "01-01-1990", some [""]⟩⟩).1
        ErrorKind.InvalidDateFormat :=
  ⟨by decide, by decide, by decide,
    ((createPerson_fail_fast (Store.empty.set "roy" roy)
      ⟨"POST", some ⟨"roy", "Roy M", "01-01-1990", some [""]⟩⟩).1
      ErrorKind.InvalidDateFormat (by decide)
      (fun kind' => by cases kind' <;> decide)).1⟩

theorem not_reports_created (kind : ErrorKind) : ¬ Reports ⟨201, ""⟩ kind := by
  cases kind <;> simp [Reports]

/-- Every answer is either the bare 201 or the answer of an error kind whose check the request
fails. -/
theorem createPerson_created_or_reports (storage : Store) (r : Request) :
    (createPerson storage r).1 = ⟨201, ""⟩ ∨
      ∃ kind, failsCheck storage r kind = true ∧ Reports (createPerson storage r).1 kind := by
  by_cases hm : r.Method = MethodPost
  · cases hb : r.Body with
    | none =>
      right
      refine ⟨ErrorKind.MalformedInput, by simp [failsCheck, hb], ?_⟩
      rw [createPerson_of_decode_error storage r hm hb]; rfl
    | some p =>
      cases hv : validateStruct p with
      | some err =>
        right
        refine ⟨ErrorKind.ValidationError, by simp [failsCheck, hb, hv], ?_⟩
        rw [createPerson_of_validation_error storage r p err hm hb hv]
        exact ⟨err, rfl⟩
      | none =>
        cases hd : MatchString dateRegex p.Nascimento with
        | false =>
          right
          refine ⟨ErrorKind.InvalidDateFormat, by simp [failsCheck, hb, hd], ?_⟩
          rw [createPerson_of_bad_date storage r p hm hb hv hd]; rfl
        | true =>
          cases hs : stackRejected p.Stack with
          | true =>
            right
            refine ⟨ErrorKind.InvalidStackItem, by simp [failsCheck, hb, hs], ?_⟩
            rw [createPerson_of_bad_stack storage r p hm hb hv hd hs]; rfl
          | false =>
            cases he : storage.exists p.Apelido with
            | true =>
              right
              refine ⟨ErrorKind.DuplicateNickname, by simp [failsCheck, hb, he], ?_⟩
              rw [createPerson_of_duplicate storage r p hm hb hv hd hs he]; rfl
            | false =>
              left
              rw [createPerson_of_fresh storage r p hm hb hv hd hs he]; rfl
  · right
    refine ⟨ErrorKind.MethodNotSupported, by simp [failsCheck, hm], ?_⟩
    rw [createPerson_of_method_ne storage r hm]; rfl

/-- Only a record that `validate.Struct` rejects is answered with the validation error. -/
theorem validateStruct_of_reports (storage : Store) (r : Request) (p : PersonRequest)
    (hm : r.Method = MethodPost) (hb : r.Body = some p)
    (h : Reports (createPerson storage r).1 ErrorKind.ValidationError) :
    validateStruct p ≠ none := by
  intro hv
  cases hd : MatchString dateRegex p.Nascimento with
  | false =>
    rw [createPerson_of_bad_date storage r p hm hb hv hd] at h
    cases reports_unique _ _ ErrorKind.InvalidDateFormat h rfl
  | true =>
    cases hs : stackRejected p.Stack with
    | true =>
      rw [createPerson_of_bad_stack storage r p hm hb hv hd hs] at h
      cases reports_unique _ _ ErrorKind.InvalidStackItem h rfl
    | false =>
      cases he : storage.exists p.Apelido with
      | true =>
        rw [createPerson_of_duplicate storage r p hm hb hv hd hs he] at h
        cases reports_unique _ _ ErrorKind.DuplicateNickname h rfl
      | false =>
        rw [createPerson_of_fresh storage r p hm hb hv hd hs he] at h
        exact not_reports_created _ h

/-! ## The individual checks -/

/-- C5: for a POST whose body decodes to `p`, structural validation passes exactly when apelido
is non-empty with at most 32 characters, nome is non-empty with at most 100 characters and
nascimento is non-empty; otherwise the answer is the 400 validation error and the store is
unchanged.  Lengths are counted in characters: with the other fields valid, an apelido of 32
characters passes and one of 33 fails, a nome of 100 characters passes and one of 101 fails, and
an apelido of 32 two-byte characters (64 bytes) passes. -/
theorem structural_validation (storage : Store) (r : Request) (p : PersonRequest)
    (hm : r.Method = MethodPost) (hb : r.Body = some p) :
    (validateStruct p = none ↔
      (p.Apelido ≠ "" ∧ p.Apelido.length ≤ 32) ∧ (p.Nome ≠ "" ∧ p.Nome.length ≤ 100) ∧
        p.Nascimento ≠ "") ∧
    (Reports (createPerson storage r).1 ErrorKind.ValidationError ↔ validateStruct p ≠ none) ∧
    (validateStruct p ≠ none →
      (createPerson storage r).1.status = 400 ∧ (createPerson storage r).2 = storage) ∧
    (p.Nome ≠ "" ∧ p.Nome.length ≤ 100 → p.Nascimento ≠ "" →
      (p.Apelido.length = 32 → validateStruct p = none) ∧
      (p.Apelido.length = 33 → validateStruct p ≠ none)) ∧
    (p.Apelido ≠ "" ∧ p.Apelido.length ≤ 32 → p.Nascimento ≠ "" →
      (p.Nome.length = 100 → validateStruct p = none) ∧
      (p.Nome.length = 101 → validateStruct p ≠ none)) ∧
    (thirtyTwoAccented.length = 32 ∧ thirtyTwoAccented.utf8ByteSize = 64 ∧
      validateStruct ⟨thirtyTwoAccented, "Roy M", "1990-01-01", none⟩ = none) := by
  have hne : ∀ s : String, 0 < s.length → s ≠ "" := by
    intro s hs h
    rw [h] at hs
    exact absurd hs (by decide)
  refine ⟨validateStruct_eq_none_iff p, ⟨validateStruct_of_reports storage r p hm hb, ?_⟩, ?_,
    ?_, ?_, by decide⟩
  · intro hv
    cases hv' : validateStruct p with
    | none => exact absurd hv' hv
    | some err =>
      rw [createPerson_of_validation_error storage r p err hm hb hv']
      exact ⟨err, rfl⟩
  · intro hv
    cases hv' : validateStruct p with
    | none => exact absurd hv' hv
    | some err =>
      rw [createPerson_of_validation_error storage r p err hm hb hv']
      exact ⟨rfl, rfl⟩
  · intro hn hd
    constructor
    · intro h
      exact (validateStruct_eq_none_iff p).mpr ⟨⟨hne _ (by omega), by omega⟩, hn, hd⟩
    · intro h hv
      have := ((validateStruct_eq_none_iff p).mp hv).1.2
      omega
  · intro ha hd
    constructor
    · intro h
      exact (validateStruct_eq_none_iff p).mpr ⟨ha, ⟨hne _ (by omega), by omega⟩, hd⟩
    · intro h hv
      have := ((validateStruct_eq_none_iff p).mp hv).2.1.2
      omega

theorem structural_validation_witness :
    Reports (createPerson Store.empty
      ⟨"POST", some ⟨String.mk (List.replicate 33 'a'), "Roy M", "1990-01-01", none⟩⟩).1
      ErrorKind.ValidationError ∧
    (createPerson Store.empty
      ⟨"POST", some ⟨String.mk (List.replicate 33 'a'), "Roy M", "1990-01-01", none⟩⟩).1.status
      = 400 :=
  have h := structural_validation Store.empty
    ⟨"POST", some ⟨String.mk (List.replicate 33 'a'), "Roy M", "1990-01-01", none⟩⟩
    ⟨String.mk (List.replicate 33 'a'), "Roy M", "1990-01-01", none⟩ rfl rfl
  ⟨h.2.1.mpr (by decide), (h.2.2.1 (by decide)).1⟩

/-- C6: the date-format check accepts a string exactly when it consists of four ASCII digits,
`-`, two ASCII digits, `-`, two ASCII digits and nothing else, so exactly ten characters; no
calendar validity is checked: "2024-99-99" is accepted, while "01-01-1990" and a date followed by
a newline are not; and a POST that passes structural validation with nascimento "01-01-1990" is
answered 400 with the date-format message, the store unchanged. -/
theorem dateRegex_accepts_iff (storage : Store) (r : Request) (p : PersonRequest)
    (hm : r.Method = MethodPost) (hb : r.Body = some p) (hv : StructurallyValid p) :
    (∀ s, MatchString dateRegex s = true ↔ IsDateText s) ∧
    (∀ s, MatchString dateRegex s = true → s.length = 10) ∧
    MatchString dateRegex "2024-99-99" = true ∧
    MatchString dateRegex "01-01-1990" = false ∧
    MatchString dateRegex "1990-01-01\n" = false ∧
    (¬ IsDateText p.Nascimento →
      createPerson storage r =
        (⟨400, "Formato de nascimento inválido. Use AAAA-MM-DD\n"⟩, storage)) ∧
    (p.Nascimento = "01-01-1990" →
      createPerson storage r =
        (⟨400, "Formato de nascimento inválido. Use AAAA-MM-DD\n"⟩, storage)) := by
  have hbad : ¬ IsDateText p.Nascimento →
      createPerson storage r =
        (⟨400, "Formato de nascimento inválido. Use AAAA-MM-DD\n"⟩, storage) := by
    intro hd
    have hd' : MatchString dateRegex p.Nascimento = false := by
      cases h : MatchString dateRegex p.Nascimento with
      | false => rfl
      | true => exact absurd ((matchString_dateRegex_iff _).mp h) hd
    rw [createPerson_of_bad_date storage r p hm hb ((validateStruct_eq_none_iff p).mpr hv) hd']
    rfl
  refine ⟨matchString_dateRegex_iff, ?_, by decide, by decide, by decide, hbad, ?_⟩
  · intro s hs
    obtain ⟨y1, y2, y3, y4, m1, m2, d1, d2, _, _, _, rfl⟩ := (matchString_dateRegex_iff s).mp hs
    rfl
  · intro hn
    apply hbad
    rw [hn, ← matchString_dateRegex_iff]
    decide

theorem dateRegex_accepts_iff_witness :
    StructurallyValid ⟨"roy", "Roy M", "01-01-1990", none⟩ ∧
      createPerson Store.empty ⟨"POST", some ⟨"roy", "Roy M", "01-01-1990", none⟩⟩ =
        (⟨400, "Formato de nascimento inválido. Use AAAA-MM-DD\n"⟩, Store.empty) :=
  ⟨(validateStruct_eq_none_iff _).mp (by decide),
    (dateRegex_accepts_iff Store.empty ⟨"POST", some ⟨"roy", "Roy M", "01-01-1990", none⟩⟩
      ⟨"roy", "Roy M", "01-01-1990", none⟩ rfl rfl
      ((validateStruct_eq_none_iff _).mp (by decide))).2.2.2.2.2.2 rfl⟩

/-- C7, at the failing input: a stack item of 32 two-byte characters (64 bytes) is rejected with
the 400 stack message, although the same string is accepted as an apelido and the same request
with the ASCII item "go" is answered 201.  The stack check compares the byte length. -/
theorem stack_item_limit_counts_bytes :
    thirtyTwoAccented.length = 32 ∧ thirtyTwoAccented.utf8ByteSize = 64 ∧
    badStackItem thirtyTwoAccented = true ∧
    (createPerson Store.empty
      ⟨"POST", some ⟨"roy", "Roy M", "1990-01-01", some [thirtyTwoAccented]⟩⟩).1 =
      ⟨400, "Cada item da stack deve ser não vazio e ter até 32 caracteres\n"⟩ ∧
    (createPerson Store.empty
      ⟨"POST", some ⟨thirtyTwoAccented, "Roy M", "1990-01-01", some ["go"]⟩⟩).1 = ⟨201, ""⟩ ∧
    (createPerson Store.empty
      ⟨"POST", some ⟨"roy", "Roy M", "1990-01-01", some ["go"]⟩⟩).1 = ⟨201, ""⟩ := by
  decide

/-- C8: for a POST whose decoded record passes the structural and date-format checks and whose
stack is null or the empty sequence, the answer is never the stack error: it is 201 when the
apelido is fresh and 409 when it is stored; on success the record stored under the apelido is
the submitted one, so a null stack is stored as null and an empty stack as empty. -/
theorem createPerson_null_or_empty_stack (storage : Store) (r : Request) (p : PersonRequest)
    (hm : r.Method = MethodPost) (hb : r.Body = some p) (hv : StructurallyValid p)
    (hd : IsDateText p.Nascimento) (hs : p.Stack = none ∨ p.Stack = some []) :
    ¬ Reports (createPerson storage r).1 ErrorKind.InvalidStackItem ∧
    (storage p.Apelido = none →
      (createPerson storage r).1 = ⟨201, ""⟩ ∧
      (createPerson storage r).2 p.Apelido = some p ∧
      (p.Stack = none → ((createPerson storage r).2 p.Apelido).map PersonRequest.Stack =
        some none) ∧
      (p.Stack = some [] → ((createPerson storage r).2 p.Apelido).map PersonRequest.Stack =
        some (some []))) ∧
    (storage p.Apelido ≠ none →
      (createPerson storage r).1 = ⟨409, "Apelido já existente\n"⟩ ∧
      (createPerson storage r).2 = storage) := by
  have hv' := (validateStruct_eq_none_iff p).mpr hv
  have hd' := (matchString_dateRegex_iff _).mpr hd
  have hs' : stackRejected p.Stack = false := by
    rcases hs with h | h <;> rw [h] <;> rfl
  have hfresh : storage p.Apelido = none →
      createPerson storage r = (⟨201, ""⟩, storage.set p.Apelido p) := fun hf =>
    createPerson_of_fresh storage r p hm hb hv' hd' hs' ((exists_eq_false_iff _ _).mpr hf)
  have hdup : storage p.Apelido ≠ none →
      createPerson storage r = (⟨409, "Apelido já existente\n"⟩, storage) := by
    intro hk
    have he : storage.exists p.Apelido = true := by
      cases h : storage.exists p.Apelido with
      | true => rfl
      | false => exact absurd ((exists_eq_false_iff _ _).mp h) hk
    exact createPerson_of_duplicate storage r p hm hb hv' hd' hs' he
  refine ⟨?_, ?_, ?_⟩
  · intro h
    by_cases hk : storage p.Apelido = none
    · rw [hfresh hk] at h
      exact not_reports_created _ h
    · rw [hdup hk] at h
      cases reports_unique _ _ ErrorKind.DuplicateNickname h rfl
  · intro hk
    rw [hfresh hk]
    have hget : (storage.set p.Apelido p) p.Apelido = some p := by simp [Store.set]
    refine ⟨rfl, hget, ?_, ?_⟩
    · intro h; simp only [hget, Option.map_some', h]
    · intro h; simp only [hget, Option.map_some', h]
  · intro hk
    rw [hdup hk]
    exact ⟨rfl, rfl⟩

theorem createPerson_null_or_empty_stack_witness :
    StructurallyValid ⟨"roy", "Roy M", "1990-01-01", some []⟩ ∧
    IsDateText "1990-01-01" ∧
    (createPerson Store.empty ⟨"POST", some ⟨"roy", "Roy M", "1990-01-01", some []⟩⟩).1 =
      ⟨201, ""⟩ ∧
    ((createPerson Store.empty ⟨"POST", some ⟨"roy", "Roy M", "1990-01-01", some []⟩⟩).2
      "roy").map PersonRequest.Stack = some (some []) :=
  have h := (createPerson_null_or_empty_stack Store.empty
    ⟨"POST", some ⟨"roy", "Roy M", "1990-01-01", some []⟩⟩
    ⟨"roy", "Roy M", "1990-01-01", some []⟩ rfl rfl
    ((validateStruct_eq_none_iff _).mp (by decide))
    ((matchString_dateRegex_iff _).mp (by decide)) (Or.inr rfl)).2.1 rfl
  ⟨(validateStruct_eq_none_iff _).mp (by decide), (matchString_dateRegex_iff _).mp (by decide),
    h.1, h.2.2.2 rfl⟩

/-- C9: a request whose method is not POST is answered 405 Method Not Allowed and the store is
returned unchanged, and the outcome is the same whatever the body is (decodable or not): the body
is not looked at. -/
theorem createPerson_method_not_allowed (storage : Store) (r : Request)
    (hm : r.Method ≠ MethodPost) :
    createPerson storage r = (⟨405, "Método não permitido\n"⟩, storage) ∧
    ∀ body, createPerson storage ⟨r.Method, body⟩ = createPerson storage r := by
  constructor
  · rw [createPerson_of_method_ne storage r hm]; rfl
  · intro body
    rw [createPerson_of_method_ne storage r hm,
      createPerson_of_method_ne storage ⟨r.Method, body⟩ hm]

theorem createPerson_method_not_allowed_witness :
    (⟨"GET", some roy⟩ : Request).Method ≠ MethodPost ∧
    createPerson (Store.empty.set "roy" roy) ⟨"GET", some roy⟩ =
      (⟨405, "Método não permitido\n"⟩, Store.empty.set "roy" roy) :=
  ⟨by decide,
    (createPerson_method_not_allowed (Store.empty.set "roy" roy) ⟨"GET", some roy⟩
      (by decide)).1⟩

/-! ## Requests in sequence -/

theorem serve_cons (storage : Store) (r : Request) (rs : List Request) :
    serve storage (r :: rs) =
      ((createPerson storage r).1 :: (serve (createPerson storage r).2 rs).1,
        (serve (createPerson storage r).2 rs).2) := rfl

/-- Once the nickname is stored, every valid POST carrying it is answered 409 and the store stays
as it is. -/
theorem serve_stored_nickname (storage : Store) (k : String) (q : PersonRequest)
    (hk : storage k = some q) (rs : List Request) (hrs : ∀ r ∈ rs, ValidPostFor k r) :
    serve storage rs =
      (List.replicate rs.length ⟨409, "Apelido já existente\n"⟩, storage) := by
  induction rs with
  | nil => rfl
  | cons r rs ih =>
    obtain ⟨hm, p, hb, hpk, hp⟩ := hrs r (List.mem_cons_self r rs)
    obtain ⟨hv, hd, hs⟩ := (passesChecks_iff p).mp hp
    have he : storage.exists p.Apelido = true :=
      (exists_eq_true_iff storage _).mpr ⟨q, by rw [hpk]; exact hk⟩
    have hstep := createPerson_of_duplicate storage r p hm hb hv hd hs he
    rw [serve_cons, hstep]
    simp only
    rw [ih (fun r' hr' => hrs r' (List.mem_cons_of_mem r hr'))]
    rfl

/-- C10: on a store that does not contain nickname `k`, a non-empty list of valid POST requests
that all carry apelido `k`, handled one after another, gets 201 for the first and 409 Conflict
for every later one, and the final store holds the first request's record under `k`, every other
key being as before.  In particular the same valid POST sent twice gets 201 and then 409. -/
theorem serve_same_nickname (storage : Store) (k : String) (r : Request) (p : PersonRequest)
    (rs : List Request) (hk : storage k = none) (hb : r.Body = some p)
    (hr : ValidPostFor k r) (hrs : ∀ r' ∈ rs, ValidPostFor k r') :
    (serve storage (r :: rs)).1 =
      ⟨201, ""⟩ :: List.replicate rs.length ⟨409, "Apelido já existente\n"⟩ ∧
    (serve storage (r :: rs)).2 k = some p ∧
    (∀ k', k' ≠ k → (serve storage (r :: rs)).2 k' = storage k') ∧
    (serve storage [r, r]).1 = [⟨201, ""⟩, ⟨409, "Apelido já existente\n"⟩] := by
  obtain ⟨hm, p', hb', hpk, hp⟩ := hr
  rw [hb] at hb'
  cases hb'
  obtain ⟨hv, hd, hs⟩ := (passesChecks_iff p).mp hp
  have hf : storage.exists p.Apelido = false :=
    (exists_eq_false_iff storage _).mpr (by rw [hpk]; exact hk)
  have hstep := createPerson_of_fresh storage r p hm hb hv hd hs hf
  have hset : (storage.set p.Apelido p) k = some p := by simp [Store.set, hpk]
  have hall : ∀ rs' : List Request, (∀ r' ∈ rs', ValidPostFor k r') →
      serve storage (r :: rs') =
        (⟨201, ""⟩ :: List.replicate rs'.length ⟨409, "Apelido já existente\n"⟩,
          storage.set p.Apelido p) := by
    intro rs' hrs'
    rw [serve_cons, hstep]
    simp only
    rw [serve_stored_nickname (storage.set p.Apelido p) k p hset rs' hrs']
    rfl
  refine ⟨?_, ?_, ?_, ?_⟩
  · rw [hall rs hrs]
  · rw [hall rs hrs]
    exact hset
  · intro k' hk'
    rw [hall rs hrs]
    simp [Store.set, hpk, hk']
  · rw [hall [r] (by
      intro r' hr'
      rw [List.mem_singleton] at hr'
      rw [hr']
      exact ⟨hm, p, hb, hpk, hp⟩)]
    rfl

theorem serve_same_nickname_witness :
    Store.empty "roy" = none ∧
    ValidPostFor "roy" ⟨"POST", some roy⟩ ∧
    ValidPostFor "roy" ⟨"POST", some ⟨"roy", "Other", "2000-12-31", none⟩⟩ ∧
    (serve Store.empty [⟨"POST", some roy⟩, ⟨"POST", some ⟨"roy", "Other", "2000-12-31", none⟩⟩,
      ⟨"POST", some roy⟩]).1 =
      [⟨201, ""⟩, ⟨409, "Apelido já existente\n"⟩, ⟨409, "Apelido já existente\n"⟩] ∧
    (serve Store.empty [⟨"POST", some roy⟩, ⟨"POST", some ⟨"roy", "Other", "2000-12-31", none⟩⟩,
      ⟨"POST", some roy⟩]).2 "roy" = some roy :=
  have h1 : ValidPostFor "roy" ⟨"POST", some roy⟩ :=
    ⟨rfl, roy, rfl, rfl, (passesChecks_iff roy).mpr (by decide)⟩
  have h2 : ValidPostFor "roy" ⟨"POST", some ⟨"roy", "Other", "2000-12-31", none⟩⟩ :=
    ⟨rfl, _, rfl, rfl, (passesChecks_iff _).mpr (by decide)⟩
  have h := serve_same_nickname Store.empty "roy" ⟨"POST", some roy⟩ roy
    [⟨"POST", some ⟨"roy", "Other", "2000-12-31", none⟩⟩, ⟨"POST", some roy⟩] rfl rfl h1
    (by
      intro r' hr'
      simp only [List.mem_cons, List.mem_singleton, List.mem_nil_iff, or_false] at hr'
      rcases hr' with hr' | hr' <;> rw [hr']
      · exact h2
      · exact h1)
  ⟨rfl, h1, h2, h.1, h.2.1⟩

/-! ## Failure repeated -/

/-- C11: when a call fails (the answer is not 201), the same request sent again on the resulting
store gets the very same response, status and message, and therefore the answer of the same error
kind; the store is still the one before the first call. -/
theorem createPerson_failure_idempotent (storage : Store) (r : Request)
    (hfail : (createPerson storage r).1.status ≠ 201) :
    (createPerson (createPerson storage r).2 r).1 = (createPerson storage r).1 ∧
    (∀ kind, Reports (createPerson storage r).1 kind →
      Reports (createPerson (createPerson storage r).2 r).1 kind) ∧
    (∃ kind, Reports (createPerson storage r).1 kind) ∧
    (createPerson (createPerson storage r).2 r).2 = storage := by
  have hstore : (createPerson storage r).2 = storage := by
    rcases createPerson_store_cases storage r with h | ⟨p, _, _, _, _, h⟩
    · rw [h]
    · rw [h] at hfail
      exact absurd rfl hfail
  rw [hstore]
  refine ⟨rfl, fun _ h => h, ?_, hstore⟩
  rcases createPerson_created_or_reports storage r with h | ⟨kind, _, h⟩
  · rw [h] at hfail
    exact absurd rfl hfail
  · exact ⟨kind, h⟩

theorem createPerson_failure_idempotent_witness :
    (createPerson Store.empty ⟨"POST", some ⟨"roy", "Roy M", "01-01-1990", none⟩⟩).1.status
      ≠ 201 ∧
    (createPerson
      (createPerson Store.empty ⟨"POST", some ⟨"roy", "Roy M", "01-01-1990", none⟩⟩).2
      ⟨"POST", some ⟨"roy", "Roy M", "01-01-1990", none⟩⟩).1 =
      (createPerson Store.empty ⟨"POST", some ⟨"roy", "Roy M", "01-01-1990", none⟩⟩).1 :=
  ⟨by decide,
    (createPerson_failure_idempotent Store.empty
      ⟨"POST", some ⟨"roy", "Roy M", "01-01-1990", none⟩⟩ (by decide)).1⟩

/-! ## Invariants of the store -/

/-- One call keeps every entry the store already has. -/
theorem createPerson_keeps_entry (storage : Store) (r : Request) (k : String)
    (q : PersonRequest) (hk : storage k = some q) : (createPerson storage r).2 k = some q := by
  rcases createPerson_store_cases storage r with h | ⟨p, _, _, _, hf, h⟩
  · rw [h]
    exact hk
  · rw [h]
    have hne : k ≠ p.Apelido := by
      intro hkp
      rw [hkp, hf] at hk
      cases hk
    simp [Store.set, hne, hk]

/-- An entry of the store after one call was there before, or is the record of this request,
which then passed every check and is stored under its own apelido. -/
theorem createPerson_entry_cases (storage : Store) (r : Request) (k : String)
    (q : PersonRequest) (hk : (createPerson storage r).2 k = some q) :
    storage k = some q ∨ (q.Apelido = k ∧ PassesChecks q ∧ r.Body = some q) := by
  rcases createPerson_store_cases storage r with h | ⟨p, _, hb, hp, _, h⟩
  · rw [h] at hk
    exact Or.inl hk
  · rw [h] at hk
    by_cases hkp : k = p.Apelido
    · have hq : p = q := by simpa [Store.set, hkp] using hk
      subst hq
      exact Or.inr ⟨hkp.symm, hp, hb⟩
    · have hq : storage k = some q := by simpa [Store.set, hkp] using hk
      exact Or.inl hq

theorem serve_nil (storage : Store) : serve storage [] = ([], storage) := rfl

theorem serve_append (storage : Store) (rs rs' : List Request) :
    serve storage (rs ++ rs') =
      ((serve storage rs).1 ++ (serve (serve storage rs).2 rs').1,
        (serve (serve storage rs).2 rs').2) := by
  induction rs generalizing storage with
  | nil => rfl
  | cons r rs ih =>
    rw [List.cons_append, serve_cons, serve_cons, ih]
    rfl

/-- A property of stores that every call preserves holds after any sequence of calls. -/
theorem serve_preserves (Inv : Store → Prop)
    (hstep : ∀ s r, Inv s → Inv (createPerson s r).2) (storage : Store) (rs : List Request)
    (h0 : Inv storage) : Inv (serve storage rs).2 := by
  induction rs generalizing storage with
  | nil => exact h0
  | cons r rs ih =>
    rw [serve_cons]
    exact ih _ (hstep storage r h0)

/-- C12: once a store maps nickname `k` to record `q`, whether at the start or after any prefix
`rs` of a sequence of calls with arbitrary requests, every later store of the sequence still maps
`k` to the same `q`: no call removes or replaces an entry. -/
theorem serve_keeps_entries (storage : Store) (rs rs' : List Request) (k : String)
    (q : PersonRequest) (hk : (serve storage rs).2 k = some q) :
    (serve storage (rs ++ rs')).2 k = some q ∧
    ∀ r, (createPerson (serve storage rs).2 r).2 k = some q := by
  constructor
  · rw [serve_append]
    exact serve_preserves (fun s => s k = some q)
      (fun s r hs => createPerson_keeps_entry s r k q hs) _ rs' hk
  · intro r
    exact createPerson_keeps_entry _ r k q hk

theorem serve_keeps_entries_witness :
    (serve Store.empty [⟨"POST", some roy⟩]).2 "roy" = some roy ∧
    (serve Store.empty ([⟨"POST", some roy⟩] ++
      [⟨"POST", some ⟨"roy", "Other", "2000-12-31", none⟩⟩, ⟨"DELETE", some roy⟩,
        ⟨"POST", some ⟨"ana", "Ana", "1985-09-23", some []⟩⟩])).2 "roy" = some roy :=
  ⟨by decide,
    (serve_keeps_entries Store.empty [⟨"POST", some roy⟩]
      [⟨"POST", some ⟨"roy", "Other", "2000-12-31", none⟩⟩, ⟨"DELETE", some roy⟩,
        ⟨"POST", some ⟨"ana", "Ana", "1985-09-23", some []⟩⟩] "roy" roy (by decide)).1⟩

/-- C13: in every store reached from the empty store by a sequence of calls, each record is
stored under the key equal to its own apelido, so two entries that hold records with the same
nickname are the same entry. -/
theorem serve_nickname_unique (rs : List Request) :
    (∀ k q, (serve Store.empty rs).2 k = some q → q.Apelido = k) ∧
    (∀ k k' q q', (serve Store.empty rs).2 k = some q → (serve Store.empty rs).2 k' = some q' →
      q.Apelido = q'.Apelido → k = k' ∧ q = q') := by
  have hkey : ∀ k q, (serve Store.empty rs).2 k = some q → q.Apelido = k := by
    refine serve_preserves (fun s => ∀ k q, s k = some q → q.Apelido = k) ?_ Store.empty rs ?_
    · intro s r hs k q hk
      rcases createPerson_entry_cases s r k q hk with h | ⟨h, _, _⟩
      · exact hs k q h
      · exact h
    · intro k q hk
      cases hk
  refine ⟨hkey, ?_⟩
  intro k k' q q' hk hk' hqq
  have hkk : k = k' := by rw [← hkey k q hk, ← hkey k' q' hk', hqq]
  refine ⟨hkk, ?_⟩
  rw [hkk, hk'] at hk
  cases hk
  rfl

theorem serve_nickname_unique_witness :
    (serve Store.empty [⟨"POST", some roy⟩,
      ⟨"POST", some ⟨"ana", "Ana", "1985-09-23", some []⟩⟩]).2 "ana" =
      some ⟨"ana", "Ana", "1985-09-23", some []⟩ ∧
    (⟨"ana", "Ana", "1985-09-23", some []⟩ : PersonRequest).Apelido = "ana" :=
  ⟨by decide,
    (serve_nickname_unique [⟨"POST", some roy⟩,
      ⟨"POST", some ⟨"ana", "Ana", "1985-09-23", some []⟩⟩]).1 "ana" _ (by decide)⟩

theorem length_le_utf8ByteSize_go (l : List Char) :
    l.length ≤ String.utf8ByteSize.go l := by
  induction l with
  | nil => exact Nat.le_refl 0
  | cons c cs ih =>
    have hc : 0 < c.utf8Size := Char.utf8Size_pos c
    simp only [List.length_cons, String.utf8ByteSize.go]
    omega

/-- A string has at most as many characters as bytes. -/
theorem length_le_utf8ByteSize (s : String) : s.length ≤ s.utf8ByteSize := by
  obtain ⟨l⟩ := s
  exact length_le_utf8ByteSize_go l

/-- C16: in every store reached from the empty store by a sequence of calls, every stored record
has a non-empty apelido of at most 32 characters, a non-empty nome of at most 100 characters, a
nascimento of the shape four digits, `-`, two digits, `-`, two digits, and a stack that is null
or whose items are all non-empty and within the limit of the stack check, 32 bytes, hence also
at most 32 characters. -/
theorem serve_records_valid (rs : List Request) (k : String) (q : PersonRequest)
    (hk : (serve Store.empty rs).2 k = some q) :
    (q.Apelido ≠ "" ∧ q.Apelido.length ≤ 32) ∧
    (q.Nome ≠ "" ∧ q.Nome.length ≤ 100) ∧
    IsDateText q.Nascimento ∧
    (q.Stack = none ∨ ∃ items, q.Stack = some items ∧
      ∀ item ∈ items, item ≠ "" ∧ item.utf8ByteSize ≤ 32 ∧ item.length ≤ 32) := by
  have hinv : ∀ k q, (serve Store.empty rs).2 k = some q → PassesChecks q := by
    refine serve_preserves (fun s => ∀ k q, s k = some q → PassesChecks q) ?_ Store.empty rs ?_
    · intro s r hs k q hk
      rcases createPerson_entry_cases s r k q hk with h | ⟨_, h, _⟩
      · exact hs k q h
      · exact h
    · intro k q hk
      cases hk
  obtain ⟨⟨ha, hn, _⟩, hd, hs⟩ := hinv k q hk
  refine ⟨ha, hn, hd, ?_⟩
  cases hst : q.Stack with
  | none => exact Or.inl rfl
  | some items =>
    refine Or.inr ⟨items, rfl, ?_⟩
    intro item hi
    obtain ⟨h1, h2⟩ := hs items hst item hi
    exact ⟨h1, h2, Nat.le_trans (length_le_utf8ByteSize item) h2⟩

theorem serve_records_valid_witness :
    (serve Store.empty [⟨"POST", some ⟨"", "Nobody", "1990-01-01", none⟩⟩,
      ⟨"POST", some roy⟩]).2 "roy" = some roy ∧
    IsDateText roy.Nascimento ∧ roy.Apelido.length ≤ 32 :=
  have h := serve_records_valid [⟨"POST", some ⟨"", "Nobody", "1990-01-01", none⟩⟩,
    ⟨"POST", some roy⟩] "roy" roy (by decide)
  ⟨by decide, h.2.2.1, h.1.2⟩

/-! ## Error kinds and responses -/

theorem reports_status (resp : Response) (kind : ErrorKind) (h : Reports resp kind) :
    resp.status = kind.status := by
  cases kind <;> simp only [Reports] at h
  case ValidationError =>
    obtain ⟨err, h⟩ := h
    rw [h]
    rfl
  all_goals
    rw [h]
    rfl

/-- Answers of two different error kinds never carry the same message. -/
theorem reports_body_unique (resp resp' : Response) (k k' : ErrorKind) (h : Reports resp k)
    (h' : Reports resp' k') (hb : resp.body = resp'.body) : k = k' := by
  cases k <;> cases k' <;> first
    | rfl
    | (exfalso
       simp only [Reports] at h h'
       first
         | (rw [h, h'] at hb; revert hb; decide)
         | (obtain ⟨err, h⟩ := h
            rw [h, h'] at hb
            have hb' := congrArg (fun x => x.data.take 6) hb
            simp only [validation_body_take] at hb'
            revert hb'; decide)
         | (obtain ⟨err, h'⟩ := h'
            rw [h, h'] at hb
            have hb' := congrArg (fun x => x.data.take 6) hb
            simp only [validation_body_take] at hb'
            revert hb'; decide))

/-- C15, as stated, fails: a body that does not decode and a record with a badly formatted date
are answered with two different error kinds, MalformedInput and InvalidDateFormat, and both
answers carry the status code 400. -/
theorem malformed_and_bad_date_share_status :
    Reports (createPerson Store.empty ⟨"POST", none⟩).1 ErrorKind.MalformedInput ∧
    Reports (createPerson Store.empty ⟨"POST", some ⟨"roy", "Roy M", "01-01-1990", none⟩⟩).1
      ErrorKind.InvalidDateFormat ∧
    ErrorKind.MalformedInput ≠ ErrorKind.InvalidDateFormat ∧
    (createPerson Store.empty ⟨"POST", none⟩).1.status = 400 ∧
    (createPerson Store.empty ⟨"POST", some ⟨"roy", "Roy M", "01-01-1990", none⟩⟩).1.status =
      400 := by
  simp only [Reports]
  decide

/-- C15, amended: take two requests whose first failing checks are of two different error
kinds.  The handler answers each with the message of its kind and the two messages differ; no
failure is answered 201; the status code is 405 exactly for MethodNotSupported, 409 exactly for
DuplicateNickname and 400 for each of MalformedInput, ValidationError, InvalidDateFormat and
InvalidStackItem, so the two status codes agree exactly when both are 400. -/
theorem error_kinds_distinct_messages (storage storage' : Store) (r r' : Request)
    (kind kind' : ErrorKind) (hfail : failsCheck storage r kind = true)
    (hfirst : ∀ k, k.rank < kind.rank → failsCheck storage r k = false)
    (hfail' : failsCheck storage' r' kind' = true)
    (hfirst' : ∀ k, k.rank < kind'.rank → failsCheck storage' r' k = false)
    (hne : kind ≠ kind') :
    (createPerson storage r).1.body ≠ (createPerson storage' r').1.body ∧
    Reports (createPerson storage r).1 kind ∧
    Reports (createPerson storage' r').1 kind' ∧
    (createPerson storage r).1.status ≠ 201 ∧
    ((createPerson storage r).1.status = 405 ↔ kind = ErrorKind.MethodNotSupported) ∧
    ((createPerson storage r).1.status = 409 ↔ kind = ErrorKind.DuplicateNickname) ∧
    ((createPerson storage r).1.status = 400 ↔
      kind = ErrorKind.MalformedInput ∨ kind = ErrorKind.ValidationError ∨
        kind = ErrorKind.InvalidDateFormat ∨ kind = ErrorKind.InvalidStackItem) ∧
    ((createPerson storage r).1.status = (createPerson storage' r').1.status ↔
      (createPerson storage r).1.status = 400 ∧ (createPerson storage' r').1.status = 400) := by
  have h := reports_of_first_failure storage r kind hfail hfirst
  have h' := reports_of_first_failure storage' r' kind' hfail' hfirst'
  have hs := reports_status _ _ h
  have hs' := reports_status _ _ h'
  refine ⟨fun hb => hne (reports_body_unique _ _ _ _ h h' hb), h, h', ?_, ?_, ?_, ?_, ?_⟩
  · rw [hs]
    cases kind <;> decide
  · rw [hs]
    cases kind <;> decide
  · rw [hs]
    cases kind <;> decide
  · rw [hs]
    cases kind <;> decide
  · rw [hs, hs']
    revert hne
    cases kind <;> cases kind' <;> decide

theorem error_kinds_distinct_messages_witness :
    failsCheck Store.empty ⟨"POST", none⟩ ErrorKind.MalformedInput = true ∧
    failsCheck Store.empty ⟨"POST", some ⟨"roy", "Roy M", "1990-01-01", some [""]⟩⟩
      ErrorKind.InvalidStackItem = true ∧
    (createPerson Store.empty ⟨"POST", none⟩).1.body ≠
      (createPerson Store.empty ⟨"POST", some ⟨"roy", "Roy M", "1990-01-01",
        some [""]⟩⟩).1.body ∧
    ((createPerson Store.empty ⟨"POST", none⟩).1.status =
      (createPerson Store.empty ⟨"POST", some ⟨"roy", "Roy M", "1990-01-01",
        some [""]⟩⟩).1.status ↔
      (createPerson Store.empty ⟨"POST", none⟩).1.status = 400 ∧
      (createPerson Store.empty ⟨"POST", some ⟨"roy", "Roy M", "1990-01-01",
        some [""]⟩⟩).1.status = 400) :=
  have h := error_kinds_distinct_messages Store.empty Store.empty ⟨"POST", none⟩
    ⟨"POST", some ⟨"roy", "Roy M", "1990-01-01", some [""]⟩⟩ ErrorKind.MalformedInput
    ErrorKind.InvalidStackItem (by decide) (fun k => by cases k <;> decide) (by decide)
    (fun k => by cases k <;> decide) (by decide)
  ⟨by decide, by decide, h.1, h.2.2.2.2.2.2.2⟩

/-- Each of the six error kinds is the answer to some request. -/
theorem each_kind_is_reported (kind : ErrorKind) :
    ∃ storage r, Reports (createPerson storage r).1 kind := by
  cases kind
  · exact ⟨Store.empty, ⟨"GET", none⟩, by simp only [Reports]; decide⟩
  · exact ⟨Store.empty, ⟨"POST", none⟩, by simp only [Reports]; decide⟩
  · exact ⟨Store.empty, ⟨"POST", some ⟨"", "Roy M", "1990-01-01", none⟩⟩,
      fieldErrMsg "Apelido" "required", by decide⟩
  · exact ⟨Store.empty, ⟨"POST", some ⟨"roy", "Roy M", "01-01-1990", none⟩⟩,
      by simp only [Reports]; decide⟩
  · exact ⟨Store.empty, ⟨"POST", some ⟨"roy", "Roy M", "1990-01-01", some [""]⟩⟩,
      by simp only [Reports]; decide⟩
  · exact ⟨Store.empty.set "roy" roy, ⟨"POST", some roy⟩, by simp only [Reports]; decide⟩

/-! ## Concurrent requests -/

/-- The handler is the lock-free checks followed by the critical section. -/
theorem createPerson_eq_validate_then_insert (storage : Store) (r : Request) :
    createPerson storage r =
      match validateRequest r with
      | Except.error resp => (resp, storage)
      | Except.ok p =>
        if storage.exists p.Apelido then (conflictResponse, storage)
        else (createdResponse, storage.set p.Apelido p) := by
  unfold createPerson validateRequest
  by_cases hm : r.Method = MethodPost
  · rw [if_neg (not_not.mpr hm), if_neg (not_not.mpr hm)]
    cases hb : r.Body with
    | none => rfl
    | some p =>
      cases hv : validateStruct p with
      | some err => simp [hv]
      | none =>
        cases hd : MatchString dateRegex p.Nascimento with
        | false => simp [hv, hd]
        | true =>
          cases hs : stackRejected p.Stack with
          | true => simp [hv, hd, hs]
          | false => simp [hv, hd, hs, conflictResponse, createdResponse]
  · rw [if_pos hm, if_pos hm]

theorem validateRequest_of_valid (k : String) (r : Request) (h : ValidPostFor k r) :
    ∃ p, validateRequest r = Except.ok p ∧ p.Apelido = k := by
  obtain ⟨hm, p, hb, hk, hp⟩ := h
  obtain ⟨hv, hd, hs⟩ := (passesChecks_iff p).mp hp
  refine ⟨p, ?_, hk⟩
  unfold validateRequest
  rw [if_neg (not_not.mpr hm), hb]
  simp [hv, hd, hs]

theorem getElem?_set_cases {l : List Pc} {i j : Nat} {a b : Pc}
    (h : (l.set i a)[j]? = some b) : (j = i ∧ b = a) ∨ (j ≠ i ∧ l[j]? = some b) := by
  by_cases hji : j = i
  · subst hji
    left
    obtain ⟨hlt, _⟩ := List.getElem?_eq_some.mp h
    rw [List.length_set] at hlt
    rw [List.getElem?_set_self hlt] at h
    cases h
    exact ⟨rfl, rfl⟩
  · right
    rw [List.getElem?_set_ne (fun h' => hji h'.symm)] at h
    exact ⟨hji, h⟩

/-- Replacing the program counter of one goroutine keeps "at most one satisfies `P`" when the new
one does not satisfy `P`, or the old one did. -/
theorem atMostOne_set (P : Pc → Bool) (l : List Pc) (i : Nat) (pc pc' : Pc)
    (h : AtMostOne P l) (hi : l[i]? = some pc) (hP : P pc' = true → P pc = true) :
    AtMostOne P (l.set i pc') := by
  intro a b pa pb ha hb hPa hPb
  rcases getElem?_set_cases ha with ⟨hai, hpa⟩ | ⟨hai, ha'⟩ <;>
    rcases getElem?_set_cases hb with ⟨hbi, hpb⟩ | ⟨hbi, hb'⟩
  · rw [hai, hbi]
  · rw [hpa] at hPa
    rw [hai]
    exact h i b pc pb hi hb' (hP hPa) hPb
  · rw [hpb] at hPb
    rw [hbi]
    exact h a i pa pc ha' hi hPa (hP hPb)
  · exact h a b pa pb ha' hb' hPa hPb

/-- Replacing the program counter of one goroutine by one that satisfies `P` keeps "at most one
satisfies `P`" when nobody satisfied `P` before. -/
theorem atMostOne_set_of_none (P : Pc → Bool) (l : List Pc) (i : Nat) (pc' : Pc)
    (h : ∀ pc ∈ l, P pc = false) : AtMostOne P (l.set i pc') := by
  intro a b pa pb ha hb hPa hPb
  rcases getElem?_set_cases ha with ⟨hai, _⟩ | ⟨_, ha'⟩
  · rcases getElem?_set_cases hb with ⟨hbi, _⟩ | ⟨_, hb'⟩
    · rw [hai, hbi]
    · rw [h pb (List.mem_iff_getElem?.mpr ⟨b, hb'⟩)] at hPb
      cases hPb
  · rw [h pa (List.mem_iff_getElem?.mpr ⟨a, ha'⟩)] at hPa
    cases hPa

theorem mem_set_self {l : List Pc} {i : Nat} {pc pc' : Pc} (hi : l[i]? = some pc) :
    pc' ∈ l.set i pc' := by
  obtain ⟨hlt, _⟩ := List.getElem?_eq_some.mp hi
  exact List.mem_iff_getElem?.mpr ⟨i, List.getElem?_set_self hlt⟩

/-- An element that differs from the replaced one is still there after the replacement. -/
theorem mem_set_of_ne {l : List Pc} {i : Nat} {pc pc' a : Pc} (hi : l[i]? = some pc)
    (ha : a ∈ l) (hne : a ≠ pc) : a ∈ l.set i pc' := by
  obtain ⟨j, hj⟩ := List.mem_iff_getElem?.mp ha
  have hji : i ≠ j := by
    intro h
    subst h
    rw [hi] at hj
    cases hj
    exact hne rfl
  exact List.mem_iff_getElem?.mpr ⟨j, by rw [List.getElem?_set_ne hji]; exact hj⟩

/-- A witness of `P` survives the replacement of a program counter that does not satisfy `P`, and
a new one that satisfies `P` is a witness itself. -/
theorem exists_mem_set (P : Pc → Bool) {l : List Pc} {i : Nat} {pc pc' : Pc}
    (hi : l[i]? = some pc) (h : ∃ a ∈ l, P a = true) (hP : P pc = true → P pc' = true) :
    ∃ a ∈ l.set i pc', P a = true := by
  obtain ⟨a, ha, hPa⟩ := h
  by_cases hne : a = pc
  · subst hne
    exact ⟨pc', mem_set_self hi, hP hPa⟩
  · exact ⟨a, mem_set_of_ne hi ha hne, hPa⟩

theorem atMostOne_of_none (P : Pc → Bool) (l : List Pc) (h : ∀ pc ∈ l, P pc = false) :
    AtMostOne P l := by
  intro a b pa pb ha _ hPa _
  rw [h pa (List.mem_iff_getElem?.mpr ⟨a, ha⟩)] at hPa
  cases hPa

theorem mem_of_getElem? {l : List Pc} {i : Nat} {pc : Pc} (h : l[i]? = some pc) : pc ∈ l :=
  List.mem_iff_getElem?.mpr ⟨i, h⟩

/-- The invariant holds when the requests have just arrived. -/
theorem inv_init (storage : Store) (k : String) (rs : List Request) (hk : storage k = none)
    (hrs : ∀ r ∈ rs, ValidPostFor k r) : Inv k (World.init storage rs) := by
  have hval : ∀ pc ∈ (World.init storage rs).pcs, ∃ r ∈ rs, pc = Pc.validating r := by
    intro pc hpc
    obtain ⟨r, hr, rfl⟩ := List.mem_map.mp hpc
    exact ⟨r, hr, rfl⟩
  refine ⟨?_, ?_, ?_, ?_, ?_, ?_, ?_⟩
  · intro pc hpc
    obtain ⟨r, hr, rfl⟩ := hval pc hpc
    exact hrs r hr
  · apply atMostOne_of_none
    intro pc hpc
    obtain ⟨r, _, rfl⟩ := hval pc hpc
    rfl
  · constructor
    · intro h
      cases h
    · rintro ⟨pc, hpc, hh⟩
      obtain ⟨r, _, rfl⟩ := hval pc hpc
      cases hh
  · intro pc hpc hr
    obtain ⟨r, _, rfl⟩ := hval pc hpc
    cases hr
  · intro h
    exact absurd hk h
  · apply atMostOne_of_none
    intro pc hpc
    obtain ⟨r, _, rfl⟩ := hval pc hpc
    rfl
  · intro _ _ _
    exact hk

/-- A step that leaves the storage and the mutex alone and does not change whether the goroutine
holds the mutex keeps the invariant. -/
theorem inv_set_local (k : String) (w : World) (i : Nat) (pc pc' : Pc) (hinv : Inv k w)
    (hi : w.pcs[i]? = some pc) (hgood : GoodPc k pc') (hholds : pc'.holds = pc.holds)
    (hresp : pc'.responded = true → w.storage k ≠ none)
    (hcreated : pc.created = true → pc'.created = true)
    (hwinner : (pc'.winner = true → pc.winner = true) ∨ ∀ a ∈ w.pcs, a.winner = false)
    (hstore : pc'.isAtStore = true → w.storage k = none) :
    Inv k ⟨w.storage, w.locked, w.pcs.set i pc'⟩ := by
  refine ⟨?_, ?_, ?_, ?_, ?_, ?_, ?_⟩
  · intro a ha
    rcases List.mem_or_eq_of_mem_set ha with h | h
    · exact hinv.good a h
    · rw [h]; exact hgood
  · exact atMostOne_set _ _ i pc pc' hinv.exclusive hi (by rw [hholds]; exact id)
  · constructor
    · intro hl
      exact exists_mem_set Pc.holds hi (hinv.locked_iff.mp hl) (by rw [hholds]; exact id)
    · rintro ⟨a, ha, hh⟩
      rcases List.mem_or_eq_of_mem_set ha with h | h
      · exact hinv.locked_iff.mpr ⟨a, h, hh⟩
      · rw [h, hholds] at hh
        exact hinv.locked_iff.mpr ⟨pc, mem_of_getElem? hi, hh⟩
  · intro a ha hr
    rcases List.mem_or_eq_of_mem_set ha with h | h
    · exact hinv.responded_stored a h hr
    · rw [h] at hr; exact hresp hr
  · intro hs
    exact exists_mem_set Pc.created hi (hinv.stored_created hs) hcreated
  · rcases hwinner with h | h
    · exact atMostOne_set _ _ i pc pc' hinv.one_winner hi h
    · exact atMostOne_set_of_none _ _ i pc' h
  · intro a ha hs
    rcases List.mem_or_eq_of_mem_set ha with h | h
    · exact hinv.store_fresh a h hs
    · rw [h] at hs; exact hstore hs

/-- The step `storageMutex.Lock()` on a free mutex keeps the invariant. -/
theorem inv_lock (k : String) (w : World) (i : Nat) (p : PersonRequest) (hinv : Inv k w)
    (hi : w.pcs[i]? = some (Pc.atLock p)) (hfree : w.locked = false) :
    Inv k ⟨w.storage, true, w.pcs.set i (Pc.atLookup p)⟩ := by
  have hnone : ∀ a ∈ w.pcs, a.holds = false := by
    intro a ha
    cases hh : a.holds with
    | false => rfl
    | true =>
      have := hinv.locked_iff.mpr ⟨a, ha, hh⟩
      rw [hfree] at this
      cases this
  refine ⟨?_, ?_, ?_, ?_, ?_, ?_, ?_⟩
  · intro a ha
    rcases List.mem_or_eq_of_mem_set ha with h | h
    · exact hinv.good a h
    · rw [h]; exact hinv.good (Pc.atLock p) (mem_of_getElem? hi)
  · exact atMostOne_set_of_none _ _ i _ hnone
  · constructor
    · intro _
      exact ⟨Pc.atLookup p, mem_set_self hi, rfl⟩
    · intro _
      rfl
  · intro a ha hr
    rcases List.mem_or_eq_of_mem_set ha with h | h
    · exact hinv.responded_stored a h hr
    · rw [h] at hr; cases hr
  · intro hs
    exact exists_mem_set Pc.created hi (hinv.stored_created hs) (fun h => by cases h)
  · exact atMostOne_set _ _ i _ _ hinv.one_winner hi (fun h => by cases h)
  · intro a ha hs
    rcases List.mem_or_eq_of_mem_set ha with h | h
    · exact hinv.store_fresh a h hs
    · rw [h] at hs; cases hs

/-- A goroutine other than the one that holds the mutex does not hold it. -/
theorem not_holds_of_set (k : String) (w : World) (i : Nat) (pc pc' a : Pc) (hinv : Inv k w)
    (hi : w.pcs[i]? = some pc) (hpc : pc.holds = true) (ha : a ∈ w.pcs.set i pc')
    (hne : a ≠ pc') : a.holds = false := by
  obtain ⟨j, hj⟩ := List.mem_iff_getElem?.mp ha
  rcases getElem?_set_cases hj with ⟨_, h⟩ | ⟨hji, h⟩
  · exact absurd h hne
  · cases hh : a.holds with
    | false => rfl
    | true => exact absurd (hinv.exclusive j i a pc h hi hh hpc) hji

/-- The assignment `storage[p.Apelido] = p` followed by the 201 response keeps the invariant. -/
theorem inv_store (k : String) (w : World) (i : Nat) (p : PersonRequest) (hinv : Inv k w)
    (hi : w.pcs[i]? = some (Pc.atStore p)) :
    Inv k ⟨w.storage.set p.Apelido p, w.locked, w.pcs.set i (Pc.atUnlock createdResponse)⟩ := by
  have hpk : p.Apelido = k := hinv.good _ (mem_of_getElem? hi)
  have hstored : (w.storage.set p.Apelido p) k ≠ none := by simp [Store.set, hpk]
  refine ⟨?_, ?_, ?_, ?_, ?_, ?_, ?_⟩
  · intro a ha
    rcases List.mem_or_eq_of_mem_set ha with h | h
    · exact hinv.good a h
    · rw [h]; exact Or.inl rfl
  · exact atMostOne_set _ _ i _ _ hinv.exclusive hi (fun _ => rfl)
  · constructor
    · intro hl
      exact ⟨_, mem_set_self hi, rfl⟩
    · intro _
      exact hinv.locked_iff.mpr ⟨_, mem_of_getElem? hi, rfl⟩
  · intro _ _ _
    exact hstored
  · intro _
    exact ⟨_, mem_set_self hi, by simp [Pc.created]⟩
  · exact atMostOne_set _ _ i _ _ hinv.one_winner hi (fun _ => rfl)
  · intro a ha hs
    by_cases hne : a = Pc.atUnlock createdResponse
    · rw [hne] at hs; cases hs
    · have hh := not_holds_of_set k w i _ _ a hinv hi rfl ha hne
      cases a <;> simp [Pc.isAtStore, Pc.holds] at hs hh

/-- The deferred `storageMutex.Unlock()` keeps the invariant. -/
theorem inv_unlock (k : String) (w : World) (i : Nat) (resp : Response) (hinv : Inv k w)
    (hi : w.pcs[i]? = some (Pc.atUnlock resp)) :
    Inv k ⟨w.storage, false, w.pcs.set i (Pc.finished resp)⟩ := by
  refine ⟨?_, ?_, ?_, ?_, ?_, ?_, ?_⟩
  · intro a ha
    rcases List.mem_or_eq_of_mem_set ha with h | h
    · exact hinv.good a h
    · rw [h]; exact hinv.good (Pc.atUnlock resp) (mem_of_getElem? hi)
  · exact atMostOne_set _ _ i _ _ hinv.exclusive hi (fun h => by cases h)
  · constructor
    · intro h
      cases h
    · rintro ⟨a, ha, hh⟩
      by_cases hne : a = Pc.finished resp
      · rw [hne] at hh; cases hh
      · rw [not_holds_of_set k w i _ _ a hinv hi rfl ha hne] at hh
        cases hh
  · intro a ha hr
    rcases List.mem_or_eq_of_mem_set ha with h | h
    · exact hinv.responded_stored a h hr
    · exact hinv.responded_stored _ (mem_of_getElem? hi) rfl
  · intro hs
    exact exists_mem_set Pc.created hi (hinv.stored_created hs) (fun h => h)
  · exact atMostOne_set _ _ i _ _ hinv.one_winner hi (fun h => h)
  · intro a ha hs
    rcases List.mem_or_eq_of_mem_set ha with h | h
    · exact hinv.store_fresh a h hs
    · rw [h] at hs; cases hs

theorem step_of_none (w : World) (i : Nat) (hi : w.pcs[i]? = none) : w.step i = w := by
  simp only [World.step, hi]

theorem step_of_blocked (w : World) (i : Nat) (pc : Pc) (hi : w.pcs[i]? = some pc)
    (hn : pc.next w.storage w.locked = none) : w.step i = w := by
  simp only [World.step, hi, hn]

theorem step_of_next (w : World) (i : Nat) (pc pc' : Pc) (storage' : Store) (locked' : Bool)
    (hi : w.pcs[i]? = some pc) (hn : pc.next w.storage w.locked = some (pc', storage', locked')) :
    w.step i = ⟨storage', locked', w.pcs.set i pc'⟩ := by
  simp only [World.step, hi, hn]

/-- Every step keeps the invariant. -/
theorem inv_step (k : String) (w : World) (i : Nat) (hinv : Inv k w) : Inv k (w.step i) := by
  cases hi : w.pcs[i]? with
  | none => rw [step_of_none w i hi]; exact hinv
  | some pc =>
    have hg := hinv.good pc (mem_of_getElem? hi)
    cases pc with
    | validating r =>
      obtain ⟨p, hp, hpk⟩ := validateRequest_of_valid k r hg
      rw [step_of_next w i _ (Pc.atLock p) w.storage w.locked hi (by simp only [Pc.next, hp])]
      exact inv_set_local k w i _ _ hinv hi hpk rfl (fun h => by cases h) (fun h => by cases h)
        (Or.inl (fun h => by cases h)) (fun h => by cases h)
    | atLock p =>
      cases hl : w.locked with
      | true =>
        rw [step_of_blocked w i _ hi (by simp [Pc.next, hl])]
        exact hinv
      | false =>
        rw [step_of_next w i _ (Pc.atLookup p) w.storage true hi (by simp [Pc.next, hl])]
        exact inv_lock k w i p hinv hi hl
    | atLookup p =>
      have hpk : p.Apelido = k := hg
      cases he : w.storage.exists p.Apelido with
      | true =>
        rw [step_of_next w i _ (Pc.atUnlock conflictResponse) w.storage w.locked hi
          (by simp [Pc.next, he, conflictResponse])]
        have hs : w.storage k ≠ none := by
          obtain ⟨q, hq⟩ := (exists_eq_true_iff _ _).mp he
          rw [hpk] at hq
          rw [hq]
          exact Option.some_ne_none q
        exact inv_set_local k w i _ _ hinv hi (Or.inr rfl) rfl (fun _ => hs)
          (fun h => by cases h)
          (Or.inl (fun h => absurd h (by decide))) (fun h => by cases h)
      | false =>
        rw [step_of_next w i _ (Pc.atStore p) w.storage w.locked hi (by simp [Pc.next, he])]
        have hs : w.storage k = none := by
          rw [← hpk]
          exact (exists_eq_false_iff _ _).mp he
        have hnone : ∀ a ∈ w.pcs, a.winner = false := by
          intro a ha
          cases hw : a.winner with
          | false => rfl
          | true =>
            exfalso
            obtain ⟨j, hj⟩ := List.mem_iff_getElem?.mp ha
            cases a with
            | atStore q =>
              have hji := hinv.exclusive j i _ _ hj hi rfl rfl
              rw [hji, hi] at hj
              cases hj
            | atUnlock resp => exact hinv.responded_stored _ ha rfl hs
            | finished resp => exact hinv.responded_stored _ ha rfl hs
            | validating r => cases hw
            | atLock q => cases hw
            | atLookup q => cases hw
        exact inv_set_local k w i _ _ hinv hi hpk rfl (fun h => by cases h)
          (fun h => by cases h) (Or.inr hnone) (fun _ => hs)
    | atStore p =>
      rw [step_of_next w i _ (Pc.atUnlock createdResponse) (w.storage.set p.Apelido p) w.locked
        hi (by simp [Pc.next, createdResponse])]
      exact inv_store k w i p hinv hi
    | atUnlock resp =>
      rw [step_of_next w i _ (Pc.finished resp) w.storage false hi (by simp [Pc.next])]
      exact inv_unlock k w i resp hinv hi
    | finished resp =>
      rw [step_of_blocked w i _ hi (by simp [Pc.next])]
      exact hinv

/-- Every interleaving keeps the invariant. -/
theorem inv_run (k : String) (schedule : List Nat) (w : World) (hinv : Inv k w) :
    Inv k (w.run schedule) := by
  induction schedule generalizing w with
  | nil => exact hinv
  | cons i schedule ih => exact ih (w.step i) (inv_step k w i hinv)

theorem run_append (w : World) (s s' : List Nat) : w.run (s ++ s') = (w.run s).run s' := by
  induction s generalizing w with
  | nil => rfl
  | cons i s ih => exact ih (w.step i)

theorem step_length (w : World) (i : Nat) : (w.step i).pcs.length = w.pcs.length := by
  cases hi : w.pcs[i]? with
  | none => rw [step_of_none w i hi]
  | some pc =>
    cases hn : pc.next w.storage w.locked with
    | none => rw [step_of_blocked w i pc hi hn]
    | some t =>
      obtain ⟨pc', storage', locked'⟩ := t
      rw [step_of_next w i pc pc' storage' locked' hi hn]
      exact List.length_set _ _ _

theorem run_length (schedule : List Nat) (w : World) :
    (w.run schedule).pcs.length = w.pcs.length := by
  induction schedule generalizing w with
  | nil => rfl
  | cons i schedule ih =>
    show ((w.step i).run schedule).pcs.length = w.pcs.length
    rw [ih (w.step i), step_length]

theorem sum_map_set_lt (f : Pc → Nat) (l : List Pc) (i : Nat) (a b : Pc) (hi : l[i]? = some a)
    (hlt : f b < f a) : ((l.set i b).map f).sum < (l.map f).sum := by
  induction l generalizing i with
  | nil => simp at hi
  | cons x xs ih =>
    cases i with
    | zero =>
      simp only [List.getElem?_cons_zero, Option.some.injEq] at hi
      subst hi
      simp only [List.set_cons_zero, List.map_cons, List.sum_cons]
      omega
    | succ i =>
      simp only [List.getElem?_cons_succ] at hi
      have := ih i hi
      simp only [List.set_cons_succ, List.map_cons, List.sum_cons]
      omega

/-- A statement executed brings the goroutine closer to its return. -/
theorem next_remaining (storage : Store) (locked : Bool) (pc pc' : Pc) (storage' : Store)
    (locked' : Bool) (h : pc.next storage locked = some (pc', storage', locked')) :
    pc'.remaining < pc.remaining := by
  cases pc with
  | validating r =>
    simp only [Pc.next] at h
    cases hv : validateRequest r with
    | error resp =>
      rw [hv] at h
      cases h
      simp [Pc.remaining]
    | ok p =>
      rw [hv] at h
      cases h
      simp [Pc.remaining]
  | atLock p =>
    cases locked with
    | true => simp [Pc.next] at h
    | false =>
      simp only [Pc.next, Bool.false_eq_true, if_false, Option.some.injEq, Prod.mk.injEq] at h
      rw [← h.1]
      simp [Pc.remaining]
  | atLookup p =>
    simp only [Pc.next] at h
    cases he : storage.exists p.Apelido with
    | true =>
      rw [he] at h
      simp only [if_true, Option.some.injEq, Prod.mk.injEq] at h
      rw [← h.1]
      simp [Pc.remaining]
    | false =>
      rw [he] at h
      simp only [Bool.false_eq_true, if_false, Option.some.injEq, Prod.mk.injEq] at h
      rw [← h.1]
      simp [Pc.remaining]
  | atStore p =>
    simp only [Pc.next, Option.some.injEq, Prod.mk.injEq] at h
    rw [← h.1]
    simp [Pc.remaining]
  | atUnlock resp =>
    simp only [Pc.next, Option.some.injEq, Prod.mk.injEq] at h
    rw [← h.1]
    simp [Pc.remaining]
  | finished resp => simp [Pc.next] at h

/-- A goroutine that can move and is scheduled reduces the number of statements left. -/
theorem step_remaining (w : World) (i : Nat) (h : w.enabled i = true) :
    (w.step i).remaining < w.remaining := by
  unfold World.enabled at h
  cases hi : w.pcs[i]? with
  | none => simp [hi] at h
  | some pc =>
    cases hn : pc.next w.storage w.locked with
    | none => simp [hi, hn] at h
    | some t =>
      obtain ⟨pc', storage', locked'⟩ := t
      rw [step_of_next w i pc pc' storage' locked' hi hn]
      exact sum_map_set_lt Pc.remaining w.pcs i pc pc' hi
        (next_remaining _ _ _ _ _ _ hn)

theorem exists_enabled (w : World) (h : w.quiescent = false) : ∃ i, w.enabled i = true := by
  unfold World.quiescent at h
  rw [List.all_eq_false] at h
  obtain ⟨i, _, hi⟩ := h
  refine ⟨i, ?_⟩
  cases he : w.enabled i with
  | true => rfl
  | false => simp [he] at hi

theorem not_enabled_of_quiescent (w : World) (h : w.quiescent = true) (i : Nat) :
    w.enabled i = false := by
  by_cases hlt : i < w.pcs.length
  · unfold World.quiescent at h
    rw [List.all_eq_true] at h
    have := h i (List.mem_range.mpr hlt)
    simpa using this
  · unfold World.enabled
    rw [List.getElem?_eq_none (Nat.le_of_not_lt hlt)]

/-- Every execution can be run to completion: from any state some continuation of the schedule
reaches a state where no goroutine can move. -/
theorem exists_quiescent (n : Nat) (w : World) (hn : w.remaining ≤ n) :
    ∃ schedule, (w.run schedule).quiescent = true := by
  induction n generalizing w with
  | zero =>
    cases hq : w.quiescent with
    | true => exact ⟨[], hq⟩
    | false =>
      obtain ⟨i, hi⟩ := exists_enabled w hq
      have := step_remaining w i hi
      omega
  | succ n ih =>
    cases hq : w.quiescent with
    | true => exact ⟨[], hq⟩
    | false =>
      obtain ⟨i, hi⟩ := exists_enabled w hq
      have hlt := step_remaining w i hi
      obtain ⟨schedule, hs⟩ := ih (w.step i) (by omega)
      exact ⟨i :: schedule, hs⟩

/-- When no goroutine can move, every handler has returned: nobody waits for the mutex. -/
theorem finished_of_quiescent (k : String) (w : World) (hinv : Inv k w)
    (hq : w.quiescent = true) (pc : Pc) (hpc : pc ∈ w.pcs) : ∃ resp, pc = Pc.finished resp := by
  have hstuck : ∀ a ∈ w.pcs, a.next w.storage w.locked = none := by
    intro a ha
    obtain ⟨j, hj⟩ := List.mem_iff_getElem?.mp ha
    have := not_enabled_of_quiescent w hq j
    unfold World.enabled at this
    rw [hj] at this
    simpa using this
  have hfree : w.locked = false := by
    cases hl : w.locked with
    | false => rfl
    | true =>
      obtain ⟨a, ha, hh⟩ := hinv.locked_iff.mp hl
      have hs := hstuck a ha
      cases a <;> simp [Pc.holds] at hh
      · simp only [Pc.next] at hs
        split at hs <;> cases hs
      · simp [Pc.next] at hs
      · simp [Pc.next] at hs
  have hs := hstuck pc hpc
  cases pc with
  | finished resp => exact ⟨resp, rfl⟩
  | validating r =>
    simp only [Pc.next] at hs
    split at hs <;> cases hs
  | atLock p => simp [Pc.next, hfree] at hs
  | atLookup p =>
    simp only [Pc.next] at hs
    split at hs <;> cases hs
  | atStore p => simp [Pc.next] at hs
  | atUnlock resp => simp [Pc.next] at hs

/-- C14: N goroutines handle N valid POSTs that all carry a nickname `k` the store does not
contain.  Under every interleaving of their statements at most one goroutine is between
`storageMutex.Lock()` and the deferred `Unlock()`; every interleaving can be continued until no
goroutine can move; and whenever no goroutine can move, every handler has returned, exactly one
of them with 201 and each of the other N-1 with the 409 duplicate-nickname answer. -/
theorem concurrent_same_nickname (storage : Store) (k : String) (rs : List Request)
    (schedule : List Nat) (hk : storage k = none) (hrs : ∀ r ∈ rs, ValidPostFor k r)
    (hne : rs ≠ []) :
    AtMostOne Pc.holds ((World.init storage rs).run schedule).pcs ∧
    (∃ more, ((World.init storage rs).run (schedule ++ more)).quiescent = true) ∧
    (((World.init storage rs).run schedule).quiescent = true →
      ∃ i, i < rs.length ∧
        ((World.init storage rs).run schedule).pcs[i]? = some (Pc.finished ⟨201, ""⟩) ∧
        ∀ j, j < rs.length → j ≠ i →
          ((World.init storage rs).run schedule).pcs[j]? =
            some (Pc.finished ⟨409, "Apelido já existente\n"⟩)) := by
  have hinv : Inv k ((World.init storage rs).run schedule) :=
    inv_run k schedule _ (inv_init storage k rs hk hrs)
  have hlen : ((World.init storage rs).run schedule).pcs.length = rs.length := by
    rw [run_length]
    exact List.length_map _ _
  refine ⟨hinv.exclusive, ?_, ?_⟩
  · obtain ⟨more, hmore⟩ := exists_quiescent _ ((World.init storage rs).run schedule)
      (Nat.le_refl _)
    exact ⟨more, by rw [run_append]; exact hmore⟩
  · intro hq
    generalize (World.init storage rs).run schedule = w at hinv hlen hq
    have hfin := finished_of_quiescent k w hinv hq
    have hpos : 0 < w.pcs.length := by
      rw [hlen]
      exact List.length_pos.mpr hne
    obtain ⟨resp0, h0⟩ := hfin _ (mem_of_getElem? (List.getElem?_eq_getElem hpos))
    have hstored : w.storage k ≠ none :=
      hinv.responded_stored _ (mem_of_getElem? (List.getElem?_eq_getElem hpos))
        (by rw [h0]; rfl)
    obtain ⟨a, ha, hca⟩ := hinv.stored_created hstored
    obtain ⟨i, hi⟩ := List.mem_iff_getElem?.mp ha
    obtain ⟨respa, hra⟩ := hfin a ha
    have hcreated : respa = createdResponse := by
      rw [hra] at hca
      simpa [Pc.created] using hca
    rw [hra, hcreated] at hi
    obtain ⟨hilt, _⟩ := List.getElem?_eq_some.mp hi
    refine ⟨i, by rw [← hlen]; exact hilt, hi, ?_⟩
    intro j hj hji
    have hjlt : j < w.pcs.length := by rw [hlen]; exact hj
    have hjb := List.getElem?_eq_getElem hjlt
    obtain ⟨respb, hrb⟩ := hfin _ (mem_of_getElem? hjb)
    rw [hrb] at hjb
    rw [hjb]
    have hgood : respb = createdResponse ∨ respb = conflictResponse :=
      hinv.good _ (mem_of_getElem? hjb)
    rcases hgood with h | h
    · rw [h] at hjb
      exact absurd (hinv.one_winner j i _ _ hjb hi (by decide) (by decide)) hji
    · rw [h]
      rfl

theorem concurrent_same_nickname_witness :
    Store.empty "roy" = none ∧
    ((World.init Store.empty [⟨"POST", some roy⟩,
        ⟨"POST", some ⟨"roy", "Other", "2000-12-31", none⟩⟩, ⟨"POST", some roy⟩]).run
      [1, 1, 0, 1, 2, 0, 2, 1, 1, 0, 0, 0, 2, 2, 2]).quiescent = true ∧
    ∃ i, i < 3 ∧
      ((World.init Store.empty [⟨"POST", some roy⟩,
          ⟨"POST", some ⟨"roy", "Other", "2000-12-31", none⟩⟩, ⟨"POST", some roy⟩]).run
        [1, 1, 0, 1, 2, 0, 2, 1, 1, 0, 0, 0, 2, 2, 2]).pcs[i]? =
        some (Pc.finished ⟨201, ""⟩) ∧
      ∀ j, j < 3 → j ≠ i →
        ((World.init Store.empty [⟨"POST", some roy⟩,
            ⟨"POST", some ⟨"roy", "Other", "2000-12-31", none⟩⟩, ⟨"POST", some roy⟩]).run
          [1, 1, 0, 1, 2, 0, 2, 1, 1, 0, 0, 0, 2, 2, 2]).pcs[j]? =
          some (Pc.finished ⟨409, "Apelido já existente\n"⟩) :=
  ⟨rfl, by decide,
    (concurrent_same_nickname Store.empty "roy" [⟨"POST", some roy⟩,
      ⟨"POST", some ⟨"roy", "Other", "2000-12-31", none⟩⟩, ⟨"POST", some roy⟩]
      [1, 1, 0, 1, 2, 0, 2, 1, 1, 0, 0, 0, 2, 2, 2] rfl
      (by
        intro r hr
        simp only [List.mem_cons, List.mem_singleton, List.mem_nil_iff, or_false] at hr
        rcases hr with hr | hr | hr <;> rw [hr]
        · exact ⟨rfl, roy, rfl, rfl, (passesChecks_iff roy).mpr (by decide)⟩
        · exact ⟨rfl, _, rfl, rfl, (passesChecks_iff _).mpr (by decide)⟩
        · exact ⟨rfl, roy, rfl, rfl, (passesChecks_iff roy).mpr (by decide)⟩)
      (by decide)).2.2 (by decide)⟩

end RoyMusthang
